import Mathlib

/-!
A shallow embedding of the `markdown-utils` presentation-diff library
(`src/diff/textDiff.ts`, `src/diff/matchSlides.ts`,
`src/diff/diffPresentations.ts`, `src/diff/diffSummary.ts`,
`src/utils/presentation.ts`), together with proofs of the specification's
claims about it.

JavaScript strings are modeled as `List Char`; the JS string primitives used
by the source (`split('\n')`, `join('\n')`, `trim`, `trimEnd`,
`replace(/\r\n/g, '\n')`, `toLowerCase`, the `\s` character class) are modeled
by the list functions below, with `Char.isWhitespace` standing for the JS
whitespace class (the two agree on the ASCII inputs the claims exercise).
-/

namespace MarkdownUtils

/-- Model of the JS whitespace class used by `trim`, `trimEnd` and `\s`. -/
def isWS (c : Char) : Bool := c.isWhitespace

/-- Model of JS `String.prototype.split('\n')`; `splitNL [] = [[]]` matches
`"".split('\n') = [""]`. -/
def splitNL : List Char → List (List Char)
  | [] => [[]]
  | c :: r => if c = '\n' then [] :: splitNL r else (splitNL r).modifyHead (c :: ·)

/-- Model of JS `Array.prototype.join('\n')`. -/
def joinNL : List (List Char) → List Char
  | [] => []
  | [l] => l
  | l :: ls => l ++ '\n' :: joinNL ls

/-- Model of the left half of JS `String.prototype.trim`. -/
def trimLeft (l : List Char) : List Char := l.dropWhile isWS

/-- Model of JS `String.prototype.trimEnd` (`line.trimEnd()` in the source). -/
def trimRight : List Char → List Char
  | [] => []
  | c :: r =>
    match trimRight r with
    | [] => if isWS c then [] else [c]
    | t => c :: t

/-- Model of JS `String.prototype.trim` (strip whitespace from both ends). -/
def trim (l : List Char) : List Char := trimLeft (trimRight l)

/-- Model of `text.replace(/\r\n/g, '\n')` from `normalizeText`. -/
def replaceCRLF : List Char → List Char
  | [] => []
  | [c] => [c]
  | a :: b :: r =>
    if a = '\r' ∧ b = '\n' then '\n' :: replaceCRLF r
    else a :: replaceCRLF (b :: r)

/-- `normalizeText` (`src/diff/textDiff.ts` lines 129-136): normalize line
endings, strip trailing whitespace from every line, join, trim the whole. -/
def normalizeText (text : List Char) : List Char :=
  trim (joinNL ((splitNL (replaceCRLF text)).map trimRight))

/-- `normalizedTextEquals` (`src/diff/textDiff.ts` lines 116-118). -/
def normalizedTextEquals (text1 text2 : List Char) : Bool :=
  normalizeText text1 == normalizeText text2

/-- The `type` field of a `TextDiff` entry (`src/types/diff.ts`). -/
inductive TextDiffType
  | add
  | remove
  | unchanged
deriving DecidableEq, Repr

/-- An entry produced during LCS backtracking, before `lineNumber`s are
attached by the final `map` of `buildDiffFromLCS`. -/
structure DiffEntry where
  type : TextDiffType
  value : List Char
deriving DecidableEq, Repr

/-- A `TextDiff` record (`src/types/diff.ts`): entry type, line value, and the
1-based sequential position in the output list. -/
structure TextDiff where
  type : TextDiffType
  value : List Char
  lineNumber : Nat
deriving DecidableEq, Repr

/-- The LCS table built by `longestCommonSubsequence` (`src/diff/textDiff.ts`
lines 36-60): `lcsTab b a i j` is the entry `lcs[i][j]` for the first `i`
lines of `b` and first `j` lines of `a`, defined by the same recurrence the
source's double loop fills the matrix with. -/
def lcsTab (b a : List (List Char)) : Nat → Nat → Nat
  | 0, _ => 0
  | _ + 1, 0 => 0
  | i + 1, j + 1 =>
    if b.getD i [] = a.getD j [] then lcsTab b a i j + 1
    else max (lcsTab b a i (j + 1)) (lcsTab b a (i + 1) j)
termination_by i j => (i, j)

/-- The backtracking `while` loop of `buildDiffFromLCS` (`src/diff/textDiff.ts`
lines 75-99) as a recursion on the cursor pair `(i, j)`; the source prepends
each emitted entry (`unshift`), so the recursion appends the entry emitted at
`(i, j)` after the entries produced from the smaller state.  The `add` branch
is taken at a mismatch exactly when `lcs[i][j-1] >= lcs[i-1][j]`. -/
def backtrack (b a : List (List Char)) : Nat → Nat → List DiffEntry
  | 0, 0 => []
  | 0, j + 1 => backtrack b a 0 j ++ [⟨.add, a.getD j []⟩]
  | i + 1, 0 => backtrack b a i 0 ++ [⟨.remove, b.getD i []⟩]
  | i + 1, j + 1 =>
    if b.getD i [] = a.getD j [] then
      backtrack b a i j ++ [⟨.unchanged, b.getD i []⟩]
    else if lcsTab b a i (j + 1) ≤ lcsTab b a (i + 1) j then
      backtrack b a (i + 1) j ++ [⟨.add, a.getD j []⟩]
    else
      backtrack b a i (j + 1) ++ [⟨.remove, b.getD i []⟩]
termination_by i j => (i, j)

/-- The final renumbering `map` of `buildDiffFromLCS` (lines 102-105), with an
explicit counter for the running index. -/
def numberFrom (n : Nat) : List DiffEntry → List TextDiff
  | [] => []
  | e :: r => ⟨e.type, e.value, n⟩ :: numberFrom (n + 1) r

/-- `buildDiffFromLCS` (`src/diff/textDiff.ts` lines 65-106). -/
def buildDiffFromLCS (beforeLines afterLines : List (List Char)) : List TextDiff :=
  numberFrom 1 (backtrack beforeLines afterLines beforeLines.length afterLines.length)

/-- `diffText` (`src/diff/textDiff.ts` lines 11-29). -/
def diffText (beforeContent afterContent : List Char) : List TextDiff :=
  if beforeContent = [] ∧ afterContent = [] then []
  else
    let beforeLines := if beforeContent = [] then [] else splitNL beforeContent
    let afterLines := if afterContent = [] then [] else splitNL afterContent
    buildDiffFromLCS beforeLines afterLines

/-- The line arrays `diffText` splits its inputs into (empty string to zero
lines). -/
def linesOf (content : List Char) : List (List Char) :=
  if content = [] then [] else splitNL content

/-- Textbook longest-common-subsequence length: the specification-side
definition the claims compare the diff output against. -/
def lcsLength : List (List Char) → List (List Char) → Nat
  | [], _ => 0
  | _ :: _, [] => 0
  | x :: xs, y :: ys =>
    if x = y then lcsLength xs ys + 1
    else max (lcsLength xs (y :: ys)) (lcsLength (x :: xs) ys)
termination_by x y => (x.length, y.length)

/-- Proof-side reformulation of the backtracking pass: it walks the two line
lists from the front of their reversals and emits entries in reverse output
order; `backtrack` is proved equal to the reversal of this function. -/
def revDiff : List (List Char) → List (List Char) → List DiffEntry
  | [], [] => []
  | [], y :: ys => ⟨.add, y⟩ :: revDiff [] ys
  | x :: xs, [] => ⟨.remove, x⟩ :: revDiff xs []
  | x :: xs, y :: ys =>
    if x = y then ⟨.unchanged, x⟩ :: revDiff xs ys
    else if lcsLength xs (y :: ys) ≤ lcsLength (x :: xs) ys then
      ⟨.add, y⟩ :: revDiff (x :: xs) ys
    else
      ⟨.remove, x⟩ :: revDiff xs (y :: ys)
termination_by x y => (x.length, y.length)

/-- `MarkdownSlideLocation` (`src/types/presentation.ts`). -/
structure MarkdownSlideLocation where
  startLine : Nat
  endLine : Nat
  content : List Char
deriving DecidableEq, Repr

/-- `MarkdownSlide<T>` (`src/types/presentation.ts`), generic over the chunk
type like the source. -/
structure MarkdownSlide (γ : Type) where
  id : List Char
  title : List Char
  location : MarkdownSlideLocation
  chunks : List γ
deriving DecidableEq, Repr

/-- The `matchedBy` discriminant of a `SlideMatch`
(`'title' | 'position' | 'none'`). -/
inductive MatchedBy
  | title
  | position
  | none
deriving DecidableEq, Repr

/-- `SlideMatch` (`src/diff/matchSlides.ts` lines 7-18). -/
structure SlideMatch (γ : Type) where
  beforeSlide : Option (MarkdownSlide γ)
  afterSlide : Option (MarkdownSlide γ)
  beforeIndex : Option Nat
  afterIndex : Option Nat
  matchedBy : MatchedBy
deriving DecidableEq, Repr

variable {γ : Type}

/-- The `replace(/\s+/g, ' ')` step of `normalizeTitleForMatching`: collapse
every maximal whitespace run to a single space, tracked with a flag telling
whether the previous character was part of a whitespace run. -/
def collapseWS : Bool → List Char → List Char
  | _, [] => []
  | prevWS, c :: r =>
    if isWS c then
      if prevWS then collapseWS true r else ' ' :: collapseWS true r
    else c :: collapseWS false r

/-- `normalizeTitleForMatching` (`src/diff/matchSlides.ts` lines 157-162):
trim, collapse whitespace runs, lowercase. -/
def normalizeTitleForMatching (title : List Char) : List Char :=
  (collapseWS false (trim title)).map Char.toLower

/-- `normalizeSlideContent` (`src/diff/matchSlides.ts` lines 146-148). -/
def normalizeSlideContent (slide : MarkdownSlide γ) : List Char :=
  normalizeText slide.location.content

/-- `slidesAreEqual` (`src/diff/matchSlides.ts` lines 131-137). -/
def slidesAreEqual (slide1 slide2 : MarkdownSlide γ) : Bool :=
  normalizeSlideContent slide1 == normalizeSlideContent slide2

/-- Index/value enumeration starting at `n`, used to model the source's
indexed `for` loops. -/
def enumF (n : Nat) : List α → List (Nat × α)
  | [] => []
  | a :: l => (n, a) :: enumF (n + 1) l

/-- The inner loop of phase 1 of `matchSlides` (lines 42-62): scan the
enumerated after-slides in order for the first index not yet matched whose
normalized title equals `key`. -/
def findTitleMatch (matchedA : List Nat) (key : List Char) :
    List (Nat × MarkdownSlide γ) → Option (Nat × MarkdownSlide γ)
  | [] => none
  | (j, s) :: rest =>
    if j ∉ matchedA ∧ normalizeTitleForMatching s.title = key then some (j, s)
    else findTitleMatch matchedA key rest

/-- Phase 1 of `matchSlides` (lines 38-63): walk the before-slides in order,
carrying the next before-index `i` and the already matched after-indices,
pairing each before-slide with the first available title-equal after-slide.
Returns the phase-1 matches and the final `matchedAfterIndices`. -/
def phase1 (afterSlides : List (MarkdownSlide γ)) :
    List (MarkdownSlide γ) → Nat → List Nat → List (SlideMatch γ) × List Nat
  | [], _, matchedA => ([], matchedA)
  | bs :: rest, i, matchedA =>
    match findTitleMatch matchedA (normalizeTitleForMatching bs.title) (enumF 0 afterSlides) with
    | some (j, aSlide) =>
      let r := phase1 afterSlides rest (i + 1) (matchedA ++ [j])
      (⟨some bs, some aSlide, some i, some j, .title⟩ :: r.1, r.2)
    | none => phase1 afterSlides rest (i + 1) matchedA

/-- Sort key of the final `matches.sort` (lines 113-118):
`beforeIndex ?? afterIndex ?? 0`. -/
def matchSortKey (m : SlideMatch γ) : Nat :=
  m.beforeIndex.getD (m.afterIndex.getD 0)

/-- The phase-1 match list of `matchSlides`. -/
def phase1Matches (beforeSlides afterSlides : List (MarkdownSlide γ)) : List (SlideMatch γ) :=
  (phase1 afterSlides beforeSlides 0 []).1

/-- `matchedBeforeIndices` after phase 1: the source adds a before-index to the
set exactly when it records a phase-1 match for it, so the set is the
before-indices of the phase-1 matches. -/
def matchedB1 (beforeSlides afterSlides : List (MarkdownSlide γ)) : List Nat :=
  (phase1Matches beforeSlides afterSlides).filterMap (·.beforeIndex)

/-- `matchedAfterIndices` after phase 1. -/
def matchedA1 (beforeSlides afterSlides : List (MarkdownSlide γ)) : List Nat :=
  (phase1 afterSlides beforeSlides 0 []).2

/-- `unmatchedBeforeIndices` (`matchSlides` lines 66-68). -/
def unmatchedB (beforeSlides afterSlides : List (MarkdownSlide γ)) : List Nat :=
  (List.range beforeSlides.length).filter fun i => decide (i ∉ matchedB1 beforeSlides afterSlides)

/-- `unmatchedAfterIndices` (`matchSlides` lines 69-71). -/
def unmatchedA (beforeSlides afterSlides : List (MarkdownSlide γ)) : List Nat :=
  (List.range afterSlides.length).filter fun j => decide (j ∉ matchedA1 beforeSlides afterSlides)

/-- `minUnmatched` (`matchSlides` line 73). -/
def minUnmatched (beforeSlides afterSlides : List (MarkdownSlide γ)) : Nat :=
  min (unmatchedB beforeSlides afterSlides).length (unmatchedA beforeSlides afterSlides).length

/-- Phase 2 of `matchSlides` (lines 75-88): pair the leftover before-indices
with the leftover after-indices index-for-index up to `minUnmatched`. -/
def phase2Matches (beforeSlides afterSlides : List (MarkdownSlide γ)) : List (SlideMatch γ) :=
  let k := minUnmatched beforeSlides afterSlides
  (((unmatchedB beforeSlides afterSlides).take k).zip
      ((unmatchedA beforeSlides afterSlides).take k)).map fun p =>
    (⟨beforeSlides[p.1]?, afterSlides[p.2]?, some p.1, some p.2, .position⟩ : SlideMatch γ)

/-- `matchedBeforeIndices` after phase 2. -/
def matchedB2 (beforeSlides afterSlides : List (MarkdownSlide γ)) : List Nat :=
  matchedB1 beforeSlides afterSlides ++
    (unmatchedB beforeSlides afterSlides).take (minUnmatched beforeSlides afterSlides)

/-- `matchedAfterIndices` after phase 2. -/
def matchedA2 (beforeSlides afterSlides : List (MarkdownSlide γ)) : List Nat :=
  matchedA1 beforeSlides afterSlides ++
    (unmatchedA beforeSlides afterSlides).take (minUnmatched beforeSlides afterSlides)

/-- Phase 3 of `matchSlides`, removed side (lines 91-100). -/
def phase3Removed (beforeSlides afterSlides : List (MarkdownSlide γ)) : List (SlideMatch γ) :=
  ((List.range beforeSlides.length).filter
      fun i => decide (i ∉ matchedB2 beforeSlides afterSlides)).map
    fun i => (⟨beforeSlides[i]?, none, some i, none, .none⟩ : SlideMatch γ)

/-- Phase 3 of `matchSlides`, added side (lines 102-111). -/
def phase3Added (beforeSlides afterSlides : List (MarkdownSlide γ)) : List (SlideMatch γ) :=
  ((List.range afterSlides.length).filter
      fun j => decide (j ∉ matchedA2 beforeSlides afterSlides)).map
    fun j => (⟨none, afterSlides[j]?, none, some j, .none⟩ : SlideMatch γ)

/-- `matchSlides` (`src/diff/matchSlides.ts` lines 29-121): the three phases
in order, then the final sort by `beforeIndex ?? afterIndex ?? 0`; the final
JS `Array.prototype.sort` (stable since ES2019) is modeled by `mergeSort`. -/
def matchSlides (beforeSlides afterSlides : List (MarkdownSlide γ)) : List (SlideMatch γ) :=
  (phase1Matches beforeSlides afterSlides ++ phase2Matches beforeSlides afterSlides ++
      phase3Removed beforeSlides afterSlides ++ phase3Added beforeSlides afterSlides).mergeSort
    fun x y => decide (matchSortKey x ≤ matchSortKey y)

/-- `DiffStatus` (`src/types/diff.ts`). -/
inductive DiffStatus
  | added
  | removed
  | modified
  | unchanged
  | moved
deriving DecidableEq, Repr

/-- `SlideDiff` (`src/types/diff.ts`); `contentChanges` is `none` when the
source leaves the field `undefined`. -/
structure SlideDiff (γ : Type) where
  status : DiffStatus
  beforeSlide : Option (MarkdownSlide γ)
  afterSlide : Option (MarkdownSlide γ)
  beforeIndex : Option Nat
  afterIndex : Option Nat
  contentChanges : Option (List TextDiff)
  titleChanged : Bool
deriving DecidableEq, Repr

/-- `createSlideDiff` (`src/diff/diffPresentations.ts` lines 58-109). -/
def createSlideDiff (m : SlideMatch γ) : SlideDiff γ :=
  match m.beforeSlide, m.afterSlide with
  | Option.none, some _ =>
    ⟨.added, m.beforeSlide, m.afterSlide, m.beforeIndex, m.afterIndex, Option.none, false⟩
  | some _, Option.none =>
    ⟨.removed, m.beforeSlide, m.afterSlide, m.beforeIndex, m.afterIndex, Option.none, false⟩
  | some bs, some aSlide =>
    let contentEqual := slidesAreEqual bs aSlide
    let positionChanged := m.beforeIndex != m.afterIndex
    let titleChanged := bs.title != aSlide.title
    if contentEqual then
      if positionChanged then
        ⟨.moved, m.beforeSlide, m.afterSlide, m.beforeIndex, m.afterIndex, Option.none, titleChanged⟩
      else
        ⟨.unchanged, m.beforeSlide, m.afterSlide, m.beforeIndex, m.afterIndex, Option.none, titleChanged⟩
    else
      ⟨.modified, m.beforeSlide, m.afterSlide, m.beforeIndex, m.afterIndex,
        some (diffText bs.location.content aSlide.location.content), titleChanged⟩
  | Option.none, Option.none =>
    ⟨.unchanged, m.beforeSlide, m.afterSlide, m.beforeIndex, m.afterIndex, Option.none, false⟩

/-- `MarkdownPresentation<T>` (`src/types/presentation.ts`); the optional
`source` and `repositoryInfo` fields are omitted, no claim mentions them. -/
structure MarkdownPresentation (γ : Type) where
  slides : List (MarkdownSlide γ)
  originalContent : List Char
deriving DecidableEq, Repr

/-- `DiffSummary` (`src/types/diff.ts`). -/
structure DiffSummary where
  totalSlidesBefore : Nat
  totalSlidesAfter : Nat
  added : Nat
  removed : Nat
  modified : Nat
  unchanged : Nat
  moved : Nat
deriving DecidableEq, Repr

/-- `PresentationDiff` (`src/types/diff.ts`). -/
structure PresentationDiff (γ : Type) where
  before : MarkdownPresentation γ
  after : MarkdownPresentation γ
  slideDiffs : List (SlideDiff γ)
  summary : DiffSummary
deriving DecidableEq, Repr

/-- One step of `calculateDiffSummary`'s `switch` over a slide diff status. -/
def bumpSummary (s : DiffSummary) : DiffStatus → DiffSummary
  | .added => { s with added := s.added + 1 }
  | .removed => { s with removed := s.removed + 1 }
  | .modified => { s with modified := s.modified + 1 }
  | .unchanged => { s with unchanged := s.unchanged + 1 }
  | .moved => { s with moved := s.moved + 1 }

/-- The counting loop of `calculateDiffSummary`. -/
def tallySummary (s : DiffSummary) : List (SlideDiff γ) → DiffSummary
  | [] => s
  | d :: r => tallySummary (bumpSummary s d.status) r

/-- `calculateDiffSummary` (`src/diff/diffSummary.ts` lines 47-80, shipped in
the repository's `diff` module next to `hasChanges`/`formatDiffSummary`). -/
def calculateDiffSummary (diff : PresentationDiff γ) : DiffSummary :=
  tallySummary
    { totalSlidesBefore := diff.before.slides.length
      totalSlidesAfter := diff.after.slides.length
      added := 0, removed := 0, modified := 0, unchanged := 0, moved := 0 }
    diff.slideDiffs

/-- `diffPresentations` (`src/diff/diffPresentations.ts` lines 20-52). -/
def diffPresentations (before after : MarkdownPresentation γ) : PresentationDiff γ :=
  let slideDiffs := (matchSlides before.slides after.slides).map createSlideDiff
  let pd0 : PresentationDiff γ :=
    { before := before, after := after, slideDiffs := slideDiffs
      summary := ⟨0, 0, 0, 0, 0, 0, 0⟩ }
  { pd0 with summary := calculateDiffSummary pd0 }

/-- The heading test `line.match(/^#+\s+(.+)$/)` of `extractSlideTitle`,
returning the trimmed capture group.  The regex model: at least one leading
`#`, then at least one whitespace character, then at least one further
character; since the group is trimmed, the greedy/backtracking split point
never changes the result, so the group is modeled as `trim` of everything
after the `#` run (the JS dot class's exclusion of `\r` is not modeled; no
claim depends on it). -/
def headingTitle (line : List Char) : Option (List Char) :=
  match line.head?, line.dropWhile (· = '#') with
  | some '#', r0 :: r1 :: rest => if isWS r0 then some (trim (r0 :: r1 :: rest)) else Option.none
  | _, _ => Option.none

/-- `extractSlideTitle` (`src/utils/presentation.ts` lines 25-43). -/
def extractSlideTitle (content : List Char) : List Char :=
  let lines := (splitNL content).filter fun l => decide (trim l ≠ [])
  match lines.findSome? headingTitle with
  | some t => t
  | Option.none =>
    match lines with
    | firstLine :: _ =>
      if firstLine.length > 50 then firstLine.take 47 ++ ('.' :: '.' :: '.' :: [])
      else firstLine
    | [] => "Untitled Slide".data

/-- `serializePresentationToMarkdown` (`src/utils/presentation.ts`
lines 211-217). -/
def serializePresentationToMarkdown (p : MarkdownPresentation γ) : List Char :=
  joinNL (p.slides.map (·.location.content))

/-- `updatePresentationSlide` (`src/utils/presentation.ts` lines 222-251).
The slide index is an integer as in JS; the chunk parser
(`parseMarkdownChunks` with the optional `customParsers`) is the function
argument `parseChunks`, mirroring the source's extension point; the
`throw new Error('Invalid slide index')` is modeled as `Except.error`. -/
def updatePresentationSlide (parseChunks : List Char → List Char → List γ)
    (presentation : MarkdownPresentation γ) (slideIndex : Int)
    (newContent : List Char) : Except (List Char) (MarkdownPresentation γ) :=
  if h : slideIndex < 0 ∨ (presentation.slides.length : Int) ≤ slideIndex then
    .error "Invalid slide index".data
  else
    have hi : slideIndex.toNat < presentation.slides.length := by
      push_neg at h
      omega
    let slide := presentation.slides.get ⟨slideIndex.toNat, hi⟩
    let updatedSlides := presentation.slides.set slideIndex.toNat
      { slide with
        title := extractSlideTitle newContent
        location := { slide.location with content := newContent }
        chunks := parseChunks newContent slide.id }
    .ok { presentation with
          slides := updatedSlides
          originalContent := serializePresentationToMarkdown
            { presentation with slides := updatedSlides } }

/-- Absence of a `"\r\n"` occurrence, the fixpoint condition of
`replaceCRLF`. -/
def noCRLF : List Char → Bool
  | [] => true
  | [_] => true
  | a :: b :: r => !(a == '\r' && b == '\n') && noCRLF (b :: r)

/-- Concrete slide constructor for the witness examples below (chunk type
`Unit`, trivial line range). -/
def exSlide (id title content : List Char) : MarkdownSlide Unit :=
  ⟨id, title, ⟨0, 0, content⟩, []⟩

/-- Before-slides of the duplicate-titles scenario of C5. -/
def exDupBefore : List (MarkdownSlide Unit) :=
  [exSlide "b1".data "Same Title".data "Content 1".data,
   exSlide "b2".data "Same Title".data "Content 2".data]

/-- After-slides of the duplicate-titles scenario of C5. -/
def exDupAfter : List (MarkdownSlide Unit) :=
  [exSlide "a1".data "Same Title".data "Content 1 Modified".data,
   exSlide "a2".data "Same Title".data "Content 2".data]

/-- A slide whose title is derived from its content by `extractSlideTitle` and
whose content carries leading whitespace before the heading. -/
def cexBeforeSlide : MarkdownSlide Unit :=
  ⟨"b".data, extractSlideTitle "  # Title\nbody".data, ⟨0, 1, "  # Title\nbody".data⟩, []⟩

/-- The same slide content without the leading whitespace; it normalizes to the
same content string but extracts a different title. -/
def cexAfterSlide : MarkdownSlide Unit :=
  ⟨"a".data, extractSlideTitle "# Title\nbody".data, ⟨0, 1, "# Title\nbody".data⟩, []⟩

/-- A one-slide presentation used by the update witnesses. -/
def exPres : MarkdownPresentation Unit :=
  ⟨[exSlide "s0".data "T0".data "# T0\nbody".data], "# T0\nbody".data⟩

theorem splitNL_ne_nil (l : List Char) : splitNL l ≠ [] := by
  induction l with
  | nil => simp [splitNL]
  | cons c r ih =>
    rw [splitNL]
    split
    · simp
    · cases hsp : splitNL r with
      | nil => exact absurd hsp ih
      | cons h t => simp [hsp]

theorem joinNL_cons_cons (x : List Char) (y : List Char) (ls : List (List Char)) :
    joinNL ((x ++ y) :: ls) = x ++ joinNL (y :: ls) := by
  cases ls with
  | nil => simp [joinNL]
  | cons z zs => simp [joinNL]

theorem joinNL_splitNL (l : List Char) : joinNL (splitNL l) = l := by
  induction l with
  | nil => rfl
  | cons c r ih =>
    rw [splitNL]
    split
    next hc =>
      subst hc
      obtain ⟨h, t, hsp⟩ : ∃ h t, splitNL r = h :: t := by
        cases hsp : splitNL r with
        | nil => exact absurd hsp (splitNL_ne_nil r)
        | cons h t => exact ⟨h, t, rfl⟩
      rw [hsp] at ih ⊢
      simpa [joinNL] using ih
    next hc =>
      obtain ⟨h, t, hsp⟩ : ∃ h t, splitNL r = h :: t := by
        cases hsp : splitNL r with
        | nil => exact absurd hsp (splitNL_ne_nil r)
        | cons h t => exact ⟨h, t, rfl⟩
      rw [hsp] at ih ⊢
      rw [List.modifyHead_cons]
      have : joinNL ((c :: h) :: t) = c :: joinNL (h :: t) := by
        cases t with
        | nil => simp [joinNL]
        | cons z zs => simp [joinNL]
      rw [this, ih]

theorem splitNL_noNL (l : List Char) : ∀ x ∈ splitNL l, '\n' ∉ x := by
  induction l with
  | nil => simp [splitNL]
  | cons c r ih =>
    rw [splitNL]
    split
    next hc => simpa using ih
    next hc =>
      obtain ⟨h, t, hsp⟩ : ∃ h t, splitNL r = h :: t := by
        cases hsp : splitNL r with
        | nil => exact absurd hsp (splitNL_ne_nil r)
        | cons h t => exact ⟨h, t, rfl⟩
      rw [hsp] at ih ⊢
      rw [List.modifyHead_cons]
      intro x hx
      rcases List.mem_cons.1 hx with hx | hx
      · subst hx
        intro hmem
        rcases List.mem_cons.1 hmem with hmem | hmem
        · exact hc hmem.symm
        · exact ih h (List.mem_cons_self h t) hmem
      · exact ih x (List.mem_cons_of_mem h hx)

theorem splitNL_of_noNL (l : List Char) (h : '\n' ∉ l) : splitNL l = [l] := by
  induction l with
  | nil => rfl
  | cons c r ih =>
    rw [splitNL]
    have hc : ¬ c = '\n' := fun hc => h (hc ▸ List.mem_cons_self c r)
    rw [if_neg hc, ih (fun hm => h (List.mem_cons_of_mem c hm))]
    rfl

theorem splitNL_append_nl (x r : List Char) (h : '\n' ∉ x) :
    splitNL (x ++ '\n' :: r) = x :: splitNL r := by
  induction x with
  | nil => simp [splitNL]
  | cons c cs ih =>
    have hc : ¬ c = '\n' := fun hc => h (hc ▸ List.mem_cons_self c cs)
    rw [List.cons_append, splitNL, if_neg hc, ih (fun hm => h (List.mem_cons_of_mem c hm))]
    rfl

theorem splitNL_joinNL (ls : List (List Char)) (hne : ls ≠ [])
    (hnl : ∀ x ∈ ls, '\n' ∉ x) : splitNL (joinNL ls) = ls := by
  induction ls with
  | nil => exact absurd rfl hne
  | cons x xs ih =>
    cases xs with
    | nil => exact splitNL_of_noNL x (hnl x (List.mem_cons_self x []))
    | cons y ys =>
      rw [show joinNL (x :: y :: ys) = x ++ '\n' :: joinNL (y :: ys) from rfl]
      rw [splitNL_append_nl x _ (hnl x (List.mem_cons_self x _))]
      rw [ih (by simp) (fun z hz => hnl z (List.mem_cons_of_mem x hz))]

theorem trimRight_nil : trimRight [] = [] := rfl

theorem trimRight_cons_nil (c : Char) (r : List Char) (h : trimRight r = []) :
    trimRight (c :: r) = if isWS c then [] else [c] := by
  rw [trimRight, h]

theorem trimRight_cons_cons (c : Char) (r : List Char) (x : Char) (xs : List Char)
    (h : trimRight r = x :: xs) : trimRight (c :: r) = c :: x :: xs := by
  rw [trimRight, h]

theorem trimRight_getLast (l : List Char) :
    ∀ c, (trimRight l).getLast? = some c → isWS c = false := by
  induction l with
  | nil =>
    intro c hc
    simp [trimRight_nil] at hc
  | cons c r ih =>
    cases h : trimRight r with
    | nil =>
      rw [trimRight_cons_nil c r h]
      split
      next hw => simp
      next hw =>
        intro d hd
        simp at hd
        subst hd
        simpa using hw
    | cons x xs =>
      rw [trimRight_cons_cons c r x xs h]
      rw [h] at ih
      intro d hd
      rw [List.getLast?_cons_cons] at hd
      exact ih d hd

theorem trimRight_fixed_of_getLast (l : List Char)
    (h : ∀ c, l.getLast? = some c → isWS c = false) : trimRight l = l := by
  induction l with
  | nil => rfl
  | cons c r ih =>
    cases r with
    | nil =>
      have := h c (by simp)
      rw [trimRight_cons_nil c [] rfl, this]
      simp
    | cons x xs =>
      have hr : trimRight (x :: xs) = x :: xs := by
        apply ih
        intro d hd
        exact h d (by rw [List.getLast?_cons_cons]; exact hd)
      rw [trimRight_cons_cons c _ x xs hr]

theorem getLast_of_trimRight_fixed (l : List Char) (h : trimRight l = l) :
    ∀ c, l.getLast? = some c → isWS c = false := by
  intro c hc
  exact trimRight_getLast l c (by rw [h]; exact hc)

theorem trimRight_idem (l : List Char) : trimRight (trimRight l) = trimRight l :=
  trimRight_fixed_of_getLast _ (trimRight_getLast l)

theorem trimRight_eq_take (l : List Char) : ∃ n, trimRight l = l.take n := by
  induction l with
  | nil => exact ⟨0, rfl⟩
  | cons c r ih =>
    obtain ⟨n, hn⟩ := ih
    cases h : trimRight r with
    | nil =>
      rw [trimRight_cons_nil c r h]
      by_cases hw : isWS c
      · exact ⟨0, by rw [if_pos hw]; rfl⟩
      · exact ⟨1, by rw [if_neg hw]; rfl⟩
    | cons x xs =>
      refine ⟨n + 1, ?_⟩
      rw [trimRight_cons_cons c r x xs h, ← h, hn]
      rfl

theorem trimRight_sublist (l : List Char) : List.Sublist (trimRight l) l := by
  obtain ⟨n, hn⟩ := trimRight_eq_take l
  rw [hn]
  exact List.take_sublist n l

theorem trimRight_head (l : List Char) (h : trimRight l ≠ []) :
    (trimRight l).head? = l.head? := by
  cases l with
  | nil => rfl
  | cons c r =>
    cases hr : trimRight r with
    | nil =>
      rw [trimRight_cons_nil c r hr] at h ⊢
      by_cases hw : isWS c
      · rw [if_pos hw] at h
        exact absurd rfl h
      · rw [if_neg hw]
        rfl
    | cons x xs =>
      rw [trimRight_cons_cons c r x xs hr]
      rfl

theorem trimLeft_idem (l : List Char) : trimLeft (trimLeft l) = trimLeft l := by
  unfold trimLeft
  induction l with
  | nil => rfl
  | cons c r ih =>
    by_cases hw : isWS c
    · simpa [List.dropWhile_cons, hw] using ih
    · simp [List.dropWhile_cons, hw]

theorem trimLeft_eq_drop (l : List Char) : ∃ n, trimLeft l = l.drop n := by
  unfold trimLeft
  induction l with
  | nil => exact ⟨0, rfl⟩
  | cons c r ih =>
    by_cases hw : isWS c
    · obtain ⟨n, hn⟩ := ih
      exact ⟨n + 1, by simpa [List.dropWhile_cons, hw] using hn⟩
    · exact ⟨0, by simp [List.dropWhile_cons, hw]⟩

theorem trimLeft_getLast (l : List Char) (h : trimLeft l ≠ []) :
    (trimLeft l).getLast? = l.getLast? := by
  unfold trimLeft at h ⊢
  induction l with
  | nil => rfl
  | cons c r ih =>
    by_cases hw : isWS c
    · rw [List.dropWhile_cons, if_pos hw] at h ⊢
      rw [ih h]
      cases r with
      | nil => simp [List.dropWhile] at h
      | cons x xs => rw [List.getLast?_cons_cons]
    · rw [List.dropWhile_cons, if_neg hw]

theorem trim_idem (l : List Char) : trim (trim l) = trim l := by
  unfold trim
  have step : trimRight (trimLeft (trimRight l)) = trimLeft (trimRight l) := by
    apply trimRight_fixed_of_getLast
    intro c hc
    have hne : trimLeft (trimRight l) ≠ [] := by
      intro hl
      rw [hl] at hc
      simp at hc
    rw [trimLeft_getLast _ hne] at hc
    exact trimRight_getLast l c hc
  rw [step, trimLeft_idem]

theorem noCRLF_singleton (c : Char) : noCRLF [c] = true := rfl

theorem noCRLF_cons_cons (a b : Char) (r : List Char) :
    noCRLF (a :: b :: r) = (!(a == '\r' && b == '\n') && noCRLF (b :: r)) := rfl

theorem noCRLF_tail : ∀ (c : Char) (r : List Char), noCRLF (c :: r) → noCRLF r
  | _, [], _ => rfl
  | c, x :: xs, h => by
    rw [noCRLF_cons_cons, Bool.and_eq_true] at h
    exact h.2

theorem replaceCRLF_of_noCRLF : ∀ (l : List Char), noCRLF l → replaceCRLF l = l
  | [], _ => rfl
  | [_], _ => rfl
  | a :: b :: r, h => by
    rw [noCRLF_cons_cons, Bool.and_eq_true] at h
    obtain ⟨h1, h2⟩ := h
    have hcond : ¬ (a = '\r' ∧ b = '\n') := by
      rintro ⟨rfl, rfl⟩
      simp at h1
    rw [replaceCRLF, if_neg hcond, replaceCRLF_of_noCRLF (b :: r) h2]

theorem noCRLF_of_noNL : ∀ (l : List Char), '\n' ∉ l → noCRLF l
  | [], _ => rfl
  | [_], _ => rfl
  | a :: b :: r, h => by
    rw [noCRLF_cons_cons, Bool.and_eq_true]
    refine ⟨?_, noCRLF_of_noNL (b :: r) (fun hm => h (List.mem_cons_of_mem a hm))⟩
    have hb : b ≠ '\n' := fun hb => h (by simp [hb])
    simp [hb]

theorem noCRLF_append : ∀ (x y : List Char), noCRLF x → noCRLF y →
    (∀ cx, x.getLast? = some cx → cx = '\r' → y.head? ≠ some '\n') →
    noCRLF (x ++ y)
  | [], y, _, hy, _ => hy
  | [c], y, _, hy, hb => by
    cases y with
    | nil => rw [List.append_nil]; exact noCRLF_singleton c
    | cons d ds =>
      rw [List.singleton_append, noCRLF_cons_cons, Bool.and_eq_true]
      refine ⟨?_, hy⟩
      by_cases hc : c = '\r'
      · have hd : d ≠ '\n' := by
          intro hd
          exact hb c (by simp) hc (by simp [hd])
        simp [hd]
      · simp [hc]
  | a :: b :: r, y, hx, hy, hb => by
    rw [List.cons_append, List.cons_append, noCRLF_cons_cons, Bool.and_eq_true]
    rw [noCRLF_cons_cons, Bool.and_eq_true] at hx
    obtain ⟨h1, h2⟩ := hx
    refine ⟨h1, ?_⟩
    have heq : b :: (r ++ y) = (b :: r) ++ y := rfl
    rw [heq]
    exact noCRLF_append (b :: r) y h2 hy
      (fun cx hcx => hb cx (by rw [List.getLast?_cons_cons]; exact hcx))

theorem noCRLF_joinNL : ∀ (ls : List (List Char)),
    (∀ x ∈ ls, '\n' ∉ x) →
    (∀ x ∈ ls, ∀ c, x.getLast? = some c → isWS c = false) →
    noCRLF (joinNL ls)
  | [], _, _ => rfl
  | [l], hnl, _ => noCRLF_of_noNL l (hnl l (by simp))
  | l :: y :: ys, hnl, hlast => by
    rw [show joinNL (l :: y :: ys) = l ++ '\n' :: joinNL (y :: ys) from rfl]
    apply noCRLF_append
    · exact noCRLF_of_noNL l (hnl l (by simp))
    · have hrec : noCRLF (joinNL (y :: ys)) :=
        noCRLF_joinNL (y :: ys) (fun z hz => hnl z (List.mem_cons_of_mem l hz))
          (fun z hz => hlast z (List.mem_cons_of_mem l hz))
      have heq : '\n' :: joinNL (y :: ys) = ['\n'] ++ joinNL (y :: ys) := rfl
      rw [heq]
      apply noCRLF_append _ _ (noCRLF_singleton '\n') hrec
      intro cx hcx hr
      simp at hcx
      exact absurd (hcx.trans hr) (by decide)
    · intro cx hcx hr
      have := hlast l (by simp) cx hcx
      rw [hr] at this
      exact absurd this (by decide)

theorem lines_trimRight_getLast (m : List Char) :
    ∀ x ∈ (splitNL m).map trimRight, ∀ c, x.getLast? = some c → isWS c = false := by
  intro x hx
  obtain ⟨y, _, rfl⟩ := List.mem_map.1 hx
  exact trimRight_getLast y

theorem lines_trimRight_noNL (m : List Char) :
    ∀ x ∈ (splitNL m).map trimRight, '\n' ∉ x := by
  intro x hx
  obtain ⟨y, hy, rfl⟩ := List.mem_map.1 hx
  intro hmem
  exact splitNL_noNL m y hy ((trimRight_sublist y).subset hmem)

theorem noCRLF_take : ∀ (l : List Char) (n : Nat), noCRLF l → noCRLF (l.take n)
  | _, 0, _ => rfl
  | [], _ + 1, _ => rfl
  | [c], n + 1, _ => by
    rw [show List.take (n + 1) [c] = c :: List.take n [] from rfl, List.take_nil]
    exact noCRLF_singleton c
  | _ :: _ :: _, 1, _ => rfl
  | a :: b :: r, n + 2, h => by
    rw [noCRLF_cons_cons, Bool.and_eq_true] at h
    obtain ⟨h1, h2⟩ := h
    have heq : (a :: b :: r).take (n + 2) = a :: b :: r.take n := rfl
    rw [heq, noCRLF_cons_cons, Bool.and_eq_true]
    refine ⟨h1, ?_⟩
    have heq2 : b :: r.take n = (b :: r).take (n + 1) := rfl
    rw [heq2]
    exact noCRLF_take (b :: r) (n + 1) h2

theorem noCRLF_drop : ∀ (n : Nat) (l : List Char), noCRLF l → noCRLF (l.drop n)
  | 0, _, h => h
  | _ + 1, [], _ => rfl
  | n + 1, c :: r, h => noCRLF_drop n r (noCRLF_tail c r h)

theorem noCRLF_trim (l : List Char) (h : noCRLF l) : noCRLF (trim l) := by
  unfold trim
  obtain ⟨n, hn⟩ := trimLeft_eq_drop (trimRight l)
  rw [hn]
  apply noCRLF_drop
  obtain ⟨m, hm⟩ := trimRight_eq_take l
  rw [hm]
  exact noCRLF_take l m h

theorem noCRLF_normalizeText (l : List Char) : noCRLF (normalizeText l) := by
  rw [normalizeText]
  exact noCRLF_trim _ (noCRLF_joinNL _ (lines_trimRight_noNL _) (lines_trimRight_getLast _))

theorem replaceCRLF_normalizeText (l : List Char) :
    replaceCRLF (normalizeText l) = normalizeText l :=
  replaceCRLF_of_noCRLF _ (noCRLF_normalizeText l)

theorem splitNL_exists_cons (l : List Char) : ∃ h t, splitNL l = h :: t := by
  cases hsp : splitNL l with
  | nil => exact absurd hsp (splitNL_ne_nil l)
  | cons h t => exact ⟨h, t, rfl⟩

theorem splitNL_lines_tail (c : Char) (r : List Char)
    (H : ∀ x ∈ splitNL (c :: r), trimRight x = x) :
    ∀ x ∈ splitNL r, trimRight x = x := by
  by_cases hc : c = '\n'
  · subst hc
    intro x hx
    apply H
    rw [splitNL, if_pos rfl]
    exact List.mem_cons_of_mem _ hx
  · obtain ⟨h, t, hsp⟩ := splitNL_exists_cons r
    have hm : splitNL (c :: r) = (c :: h) :: t := by
      rw [splitNL, if_neg hc, hsp, List.modifyHead_cons]
    intro x hx
    rw [hsp] at hx
    rcases List.mem_cons.1 hx with rfl | hx
    · have hfix : trimRight (c :: x) = c :: x :=
        H _ (by rw [hm]; exact List.mem_cons_self _ _)
      apply trimRight_fixed_of_getLast
      intro d hd
      apply getLast_of_trimRight_fixed _ hfix
      cases x with
      | nil => simp at hd
      | cons z zs =>
        rw [List.getLast?_cons_cons]
        exact hd
    · exact H x (by rw [hm]; exact List.mem_cons_of_mem _ hx)

theorem splitNL_head_nl (t : List Char) (tl : List (List Char))
    (h : splitNL t = [] :: tl) (hne : t ≠ []) : t.head? = some '\n' := by
  cases t with
  | nil => exact absurd rfl hne
  | cons c r =>
    by_cases hc : c = '\n'
    · rw [hc]
      rfl
    · obtain ⟨h', t', hsp⟩ := splitNL_exists_cons r
      rw [splitNL, if_neg hc, hsp, List.modifyHead_cons] at h
      simp at h

theorem splitNL_trimRight_fixed : ∀ (m : List Char),
    (∀ x ∈ splitNL m, trimRight x = x) →
    ∀ x ∈ splitNL (trimRight m), trimRight x = x
  | [], _ => by
    intro x hx
    rw [trimRight_nil] at hx
    simp [splitNL] at hx
    subst hx
    rfl
  | c :: r, H => by
    have H' := splitNL_lines_tail c r H
    have IH := splitNL_trimRight_fixed r H'
    cases ht : trimRight r with
    | nil =>
      rw [trimRight_cons_nil c r ht]
      by_cases hw : isWS c
      · rw [if_pos hw]
        intro x hx
        simp [splitNL] at hx
        subst hx
        rfl
      · rw [if_neg hw]
        have hc : c ≠ '\n' := fun hcn => hw (by rw [hcn]; decide)
        intro x hx
        rw [splitNL, if_neg hc] at hx
        simp [splitNL] at hx
        subst hx
        rw [trimRight_cons_nil c [] rfl, if_neg hw]
    | cons x0 xs0 =>
      rw [trimRight_cons_cons c r x0 xs0 ht]
      rw [ht] at IH
      by_cases hc : c = '\n'
      · subst hc
        rw [splitNL, if_pos rfl]
        intro x hx
        rcases List.mem_cons.1 hx with rfl | hx
        · rfl
        · exact IH x hx
      · obtain ⟨h', t', hsp⟩ := splitNL_exists_cons (x0 :: xs0)
        rw [splitNL, if_neg hc, hsp, List.modifyHead_cons]
        intro x hx
        rcases List.mem_cons.1 hx with rfl | hx
        · cases h' with
          | nil =>
            have hhd : (x0 :: xs0).head? = some '\n' :=
              splitNL_head_nl _ _ hsp (by simp)
            simp at hhd
            have hne' : trimRight r ≠ [] := by
              rw [ht]
              simp
            have hheads := trimRight_head r hne'
            rw [ht] at hheads
            have hhr : r.head? = some '\n' := by
              rw [← hheads]
              simp [hhd]
            obtain ⟨r', rfl⟩ : ∃ r', r = '\n' :: r' := by
              cases r with
              | nil => simp at hhr
              | cons z zs =>
                simp at hhr
                exact ⟨zs, by rw [hhr]⟩
            apply H
            rw [splitNL, if_neg hc]
            rw [show splitNL ('\n' :: r') = [] :: splitNL r' from by
              rw [splitNL, if_pos rfl]]
            rw [List.modifyHead_cons]
            exact List.mem_cons_self _ _
          | cons z zs =>
            apply trimRight_fixed_of_getLast
            intro d hd
            rw [List.getLast?_cons_cons] at hd
            have hfix : trimRight (z :: zs) = z :: zs :=
              IH _ (by rw [hsp]; exact List.mem_cons_self _ _)
            exact getLast_of_trimRight_fixed _ hfix d hd
        · exact IH x (by rw [hsp]; exact List.mem_cons_of_mem _ hx)

theorem splitNL_trimLeft_fixed : ∀ (m : List Char),
    (∀ x ∈ splitNL m, trimRight x = x) →
    ∀ x ∈ splitNL (trimLeft m), trimRight x = x
  | [], H => H
  | c :: r, H => by
    by_cases hw : isWS c
    · have heq : trimLeft (c :: r) = trimLeft r := by
        unfold trimLeft
        rw [List.dropWhile_cons, if_pos hw]
      rw [heq]
      exact splitNL_trimLeft_fixed r (splitNL_lines_tail c r H)
    · have heq : trimLeft (c :: r) = c :: r := by
        unfold trimLeft
        rw [List.dropWhile_cons, if_neg hw]
      rw [heq]
      exact H

theorem splitNL_normalizeText_fixed (l : List Char) :
    ∀ x ∈ splitNL (normalizeText l), trimRight x = x := by
  rw [normalizeText]
  have hnl : ∀ x ∈ (splitNL (replaceCRLF l)).map trimRight, '\n' ∉ x :=
    lines_trimRight_noNL _
  have hne : (splitNL (replaceCRLF l)).map trimRight ≠ [] := by
    obtain ⟨h, t, hsp⟩ := splitNL_exists_cons (replaceCRLF l)
    rw [hsp]
    simp
  have hsplit := splitNL_joinNL _ hne hnl
  have hfix : ∀ x ∈ splitNL (joinNL ((splitNL (replaceCRLF l)).map trimRight)),
      trimRight x = x := by
    rw [hsplit]
    intro x hx
    obtain ⟨y, _, rfl⟩ := List.mem_map.1 hx
    exact trimRight_idem y
  unfold trim
  exact splitNL_trimLeft_fixed _ (splitNL_trimRight_fixed _ hfix)

theorem map_eq_self_of_forall {f : List Char → List Char} :
    ∀ (ls : List (List Char)), (∀ x ∈ ls, f x = x) → ls.map f = ls
  | [], _ => rfl
  | x :: xs, h => by
    rw [List.map_cons, h x (by simp),
      map_eq_self_of_forall xs (fun y hy => h y (List.mem_cons_of_mem x hy))]

theorem trim_normalizeText (l : List Char) :
    trim (normalizeText l) = normalizeText l := by
  rw [normalizeText]
  exact trim_idem _

/-- C6 (amended): for a matched correspondence whose titles differ as exact
strings, `titleChanged` is true, and the status is `modified` exactly when the
normalized contents differ; a title difference alone does not force
`modified` — the counterexample shows a pair whose titles (each derived from
its content by `extractSlideTitle`) differ while the pair is classified
`unchanged`. -/
theorem claim_C6 (m : SlideMatch γ) (b aSlide : MarkdownSlide γ)
    (hb : m.beforeSlide = some b) (ha : m.afterSlide = some aSlide)
    (ht : b.title ≠ aSlide.title) :
    (createSlideDiff m).titleChanged = true ∧
    ((createSlideDiff m).status = .modified ↔ ¬ (slidesAreEqual b aSlide = true)) := by
  rcases m with ⟨obs, oas, obi, oai, omb⟩
  obtain rfl : obs = some b := hb
  obtain rfl : oas = some aSlide := ha
  by_cases heq : slidesAreEqual b aSlide <;> by_cases hpos : obi = oai <;>
    simp [createSlideDiff, heq, hpos, bne_iff_ne, ht]

/-- C6 counterexample: two slides whose titles are each derived from their
contents by `extractSlideTitle` and differ as exact strings (leading
whitespace before the heading changes the extracted title but not the
normalized content), yet the matched pair is classified `unchanged` with
`titleChanged = true` — refuting the claim that a title difference always
yields `modified`. -/
theorem claim_C6_counterexample :
    cexBeforeSlide.title = extractSlideTitle cexBeforeSlide.location.content ∧
    cexAfterSlide.title = extractSlideTitle cexAfterSlide.location.content ∧
    cexBeforeSlide.title ≠ cexAfterSlide.title ∧
    (createSlideDiff (⟨some cexBeforeSlide, some cexAfterSlide, some 0, some 0,
        .title⟩ : SlideMatch Unit)).status ≠ DiffStatus.modified ∧
    (createSlideDiff (⟨some cexBeforeSlide, some cexAfterSlide, some 0, some 0,
        .title⟩ : SlideMatch Unit)).status = DiffStatus.unchanged ∧
    (createSlideDiff (⟨some cexBeforeSlide, some cexAfterSlide, some 0, some 0,
        .title⟩ : SlideMatch Unit)).titleChanged = true := by
  refine ⟨by decide, by decide, by decide, ?_, ?_, by decide⟩ <;> decide

/-- Witness for C6 on a matched pair with differing titles and differing
contents. -/
theorem claim_C6_witness :
    ((exSlide "b".data "A".data "c1".data).title ≠
      (exSlide "a".data "B".data "c2".data).title) ∧
    (createSlideDiff (⟨some (exSlide "b".data "A".data "c1".data),
        some (exSlide "a".data "B".data "c2".data), some 0, some 0,
        .title⟩ : SlideMatch Unit)).titleChanged = true ∧
    ((createSlideDiff (⟨some (exSlide "b".data "A".data "c1".data),
        some (exSlide "a".data "B".data "c2".data), some 0, some 0,
        .title⟩ : SlideMatch Unit)).status = .modified ↔
      ¬ (slidesAreEqual (exSlide "b".data "A".data "c1".data)
          (exSlide "a".data "B".data "c2".data) = true)) :=
  ⟨by decide,
   (claim_C6 _ _ _ rfl rfl (by decide)).1,
   (claim_C6 _ _ _ rfl rfl (by decide)).2⟩

/-- C7: `normalizeText` is idempotent: normalizing an already normalized text
returns it unchanged. -/
theorem claim_C7 (s : List Char) :
    normalizeText (normalizeText s) = normalizeText s := by
  conv_lhs => rw [normalizeText]
  rw [replaceCRLF_normalizeText]
  rw [map_eq_self_of_forall _ (splitNL_normalizeText_fixed s), joinNL_splitNL]
  exact trim_normalizeText s

theorem lcsLength_nil_left (y : List (List Char)) : lcsLength [] y = 0 := by
  simp [lcsLength]

theorem lcsLength_nil_right (x : List (List Char)) : lcsLength x [] = 0 := by
  cases x <;> simp [lcsLength]

theorem lcsLength_cons_cons (x y : List Char) (xs ys : List (List Char)) :
    lcsLength (x :: xs) (y :: ys) =
      if x = y then lcsLength xs ys + 1
      else max (lcsLength xs (y :: ys)) (lcsLength (x :: xs) ys) := by
  simp [lcsLength]

theorem lcsLength_le_left : ∀ (x y : List (List Char)), lcsLength x y ≤ x.length
  | [], y => by simp [lcsLength_nil_left]
  | _ :: _, [] => by simp [lcsLength_nil_right]
  | x :: xs, y :: ys => by
    rw [lcsLength_cons_cons]
    split
    · have := lcsLength_le_left xs ys
      simp only [List.length_cons]
      omega
    · apply max_le
      · exact (lcsLength_le_left xs (y :: ys)).trans (by simp)
      · exact (lcsLength_le_left (x :: xs) ys).trans (by simp)
termination_by x y => (x.length, y.length)

theorem lcsLength_le_right : ∀ (x y : List (List Char)), lcsLength x y ≤ y.length
  | [], y => by simp [lcsLength_nil_left]
  | _ :: _, [] => by simp [lcsLength_nil_right]
  | x :: xs, y :: ys => by
    rw [lcsLength_cons_cons]
    split
    · have := lcsLength_le_right xs ys
      simp only [List.length_cons]
      omega
    · apply max_le
      · exact (lcsLength_le_right xs (y :: ys)).trans (by simp)
      · exact (lcsLength_le_right (x :: xs) ys).trans (by simp)
termination_by x y => (x.length, y.length)

theorem lcsLength_exists : ∀ (x y : List (List Char)),
    ∃ w, List.Sublist w x ∧ List.Sublist w y ∧ w.length = lcsLength x y
  | [], y => ⟨[], List.nil_sublist _, List.nil_sublist _, by simp [lcsLength_nil_left]⟩
  | x :: xs, [] =>
    ⟨[], List.nil_sublist _, List.nil_sublist _, by simp [lcsLength_nil_right]⟩
  | x :: xs, y :: ys => by
    rw [lcsLength_cons_cons]
    by_cases h : x = y
    · obtain ⟨w, h1, h2, h3⟩ := lcsLength_exists xs ys
      subst h
      exact ⟨x :: w, h1.cons₂ x, h2.cons₂ x, by simp [h3, if_pos rfl]⟩
    · rw [if_neg h]
      by_cases hm : lcsLength xs (y :: ys) ≤ lcsLength (x :: xs) ys
      · obtain ⟨w, h1, h2, h3⟩ := lcsLength_exists (x :: xs) ys
        exact ⟨w, h1, h2.cons y, by rw [max_eq_right hm, h3]⟩
      · obtain ⟨w, h1, h2, h3⟩ := lcsLength_exists xs (y :: ys)
        exact ⟨w, h1.cons x, h2, by rw [max_eq_left (le_of_not_le hm), h3]⟩
termination_by x y => (x.length, y.length)

theorem lcsLength_le_of_sublists : ∀ (x y w : List (List Char)),
    List.Sublist w x → List.Sublist w y → w.length ≤ lcsLength x y
  | [], y, w => by
    intro h1 _
    rw [List.sublist_nil.1 h1]
    simp
  | x :: xs, [], w => by
    intro _ h2
    rw [List.sublist_nil.1 h2]
    simp
  | x :: xs, y :: ys, w => by
    intro h1 h2
    rw [lcsLength_cons_cons]
    by_cases h : x = y
    · subst h
      rw [if_pos rfl]
      cases w with
      | nil => simp
      | cons c ls =>
        have hls1 : List.Sublist ls xs := by
          cases h1 with
          | cons _ hh => exact ((List.sublist_cons_self c ls).trans hh)
          | cons₂ _ hh => exact hh
        have hls2 : List.Sublist ls ys := by
          cases h2 with
          | cons _ hh => exact ((List.sublist_cons_self c ls).trans hh)
          | cons₂ _ hh => exact hh
        have := lcsLength_le_of_sublists xs ys ls hls1 hls2
        simp only [List.length_cons]
        omega
    · rw [if_neg h]
      cases w with
      | nil => simp
      | cons c ls =>
        by_cases hcx : c = x
        · have h2' : List.Sublist (c :: ls) ys := by
            cases h2 with
            | cons _ hh => exact hh
            | cons₂ _ hh => exact absurd (hcx.symm.trans rfl) h
          exact (lcsLength_le_of_sublists (x :: xs) ys (c :: ls) h1 h2').trans
            (le_max_right _ _)
        · have h1' : List.Sublist (c :: ls) xs := by
            cases h1 with
            | cons _ hh => exact hh
            | cons₂ _ hh => exact absurd rfl hcx
          exact (lcsLength_le_of_sublists xs (y :: ys) (c :: ls) h1' h2).trans
            (le_max_left _ _)
termination_by x y _ => (x.length, y.length)

theorem lcsLength_reverse (x y : List (List Char)) :
    lcsLength x.reverse y.reverse = lcsLength x y := by
  apply le_antisymm
  · obtain ⟨w, h1, h2, h3⟩ := lcsLength_exists x.reverse y.reverse
    rw [← h3]
    have h1' : List.Sublist w.reverse x := by simpa using h1.reverse
    have h2' : List.Sublist w.reverse y := by simpa using h2.reverse
    have := lcsLength_le_of_sublists x y w.reverse h1' h2'
    simpa using this
  · obtain ⟨w, h1, h2, h3⟩ := lcsLength_exists x y
    rw [← h3]
    have := lcsLength_le_of_sublists x.reverse y.reverse w.reverse h1.reverse h2.reverse
    simpa using this

theorem lcsLength_self (q : List (List Char)) : lcsLength q q = q.length :=
  le_antisymm (lcsLength_le_left q q)
    (lcsLength_le_of_sublists q q q (List.Sublist.refl q) (List.Sublist.refl q))

theorem lcsLength_cons_self_left (u : List Char) (q : List (List Char)) :
    lcsLength (u :: q) q = q.length :=
  le_antisymm (lcsLength_le_right _ _)
    (lcsLength_le_of_sublists (u :: q) q q (List.sublist_cons_self u q)
      (List.Sublist.refl q))

theorem lcsLength_cons_self_right (v : List Char) (q : List (List Char)) :
    lcsLength q (v :: q) = q.length :=
  le_antisymm (lcsLength_le_left _ _)
    (lcsLength_le_of_sublists q (v :: q) q (List.Sublist.refl q)
      (List.sublist_cons_self v q))

theorem take_succ_reverse (b : List (List Char)) (i : Nat) (h : i < b.length) :
    (b.take (i + 1)).reverse = b[i] :: (b.take i).reverse := by
  rw [List.take_succ, List.getElem?_eq_getElem h]
  simp

theorem lcsTab_zero_left (b a : List (List Char)) (j : Nat) : lcsTab b a 0 j = 0 := by
  simp [lcsTab]

theorem lcsTab_succ_zero (b a : List (List Char)) (i : Nat) : lcsTab b a (i + 1) 0 = 0 := by
  simp [lcsTab]

theorem lcsTab_succ_succ (b a : List (List Char)) (i j : Nat) :
    lcsTab b a (i + 1) (j + 1) =
      if b.getD i [] = a.getD j [] then lcsTab b a i j + 1
      else max (lcsTab b a i (j + 1)) (lcsTab b a (i + 1) j) := by
  rw [lcsTab]

theorem backtrack_zero_zero (b a : List (List Char)) : backtrack b a 0 0 = [] := by
  simp [backtrack]

theorem backtrack_zero_succ (b a : List (List Char)) (j : Nat) :
    backtrack b a 0 (j + 1) = backtrack b a 0 j ++ [⟨.add, a.getD j []⟩] := by
  rw [backtrack]

theorem backtrack_succ_zero (b a : List (List Char)) (i : Nat) :
    backtrack b a (i + 1) 0 = backtrack b a i 0 ++ [⟨.remove, b.getD i []⟩] := by
  rw [backtrack]

theorem backtrack_succ_succ (b a : List (List Char)) (i j : Nat) :
    backtrack b a (i + 1) (j + 1) =
      if b.getD i [] = a.getD j [] then
        backtrack b a i j ++ [⟨.unchanged, b.getD i []⟩]
      else if lcsTab b a i (j + 1) ≤ lcsTab b a (i + 1) j then
        backtrack b a (i + 1) j ++ [⟨.add, a.getD j []⟩]
      else
        backtrack b a i (j + 1) ++ [⟨.remove, b.getD i []⟩] := by
  rw [backtrack]

theorem revDiff_nil_nil : revDiff [] [] = [] := by
  simp [revDiff]

theorem revDiff_nil_cons (y : List Char) (ys : List (List Char)) :
    revDiff [] (y :: ys) = ⟨.add, y⟩ :: revDiff [] ys := by
  rw [revDiff]

theorem revDiff_cons_nil (x : List Char) (xs : List (List Char)) :
    revDiff (x :: xs) [] = ⟨.remove, x⟩ :: revDiff xs [] := by
  rw [revDiff]

theorem revDiff_cons_cons (x y : List Char) (xs ys : List (List Char)) :
    revDiff (x :: xs) (y :: ys) =
      if x = y then ⟨.unchanged, x⟩ :: revDiff xs ys
      else if lcsLength xs (y :: ys) ≤ lcsLength (x :: xs) ys then
        ⟨.add, y⟩ :: revDiff (x :: xs) ys
      else
        ⟨.remove, x⟩ :: revDiff xs (y :: ys) := by
  rw [revDiff]

theorem lcsTab_eq (b a : List (List Char)) : ∀ (i j : Nat), i ≤ b.length → j ≤ a.length →
    lcsTab b a i j = lcsLength ((b.take i).reverse) ((a.take j).reverse)
  | 0, j => by
    intro _ _
    simp [lcsTab_zero_left, lcsLength_nil_left]
  | i + 1, 0 => by
    intro _ _
    simp [lcsTab_succ_zero, lcsLength_nil_right]
  | i + 1, j + 1 => by
    intro hi hj
    have hi' : i < b.length := by omega
    have hj' : j < a.length := by omega
    rw [lcsTab_succ_succ, take_succ_reverse b i hi', take_succ_reverse a j hj',
      lcsLength_cons_cons, List.getD_eq_getElem b [] hi', List.getD_eq_getElem a [] hj']
    by_cases h : b[i] = a[j]
    · rw [if_pos h, if_pos h, lcsTab_eq b a i j (by omega) (by omega)]
    · rw [if_neg h, if_neg h,
        lcsTab_eq b a i (j + 1) (by omega) (by omega),
        lcsTab_eq b a (i + 1) j (by omega) (by omega),
        take_succ_reverse b i hi', take_succ_reverse a j hj']
termination_by i j => (i, j)

theorem backtrack_eq (b a : List (List Char)) : ∀ (i j : Nat), i ≤ b.length → j ≤ a.length →
    backtrack b a i j = (revDiff ((b.take i).reverse) ((a.take j).reverse)).reverse
  | 0, 0 => by
    intro _ _
    simp [backtrack_zero_zero, revDiff_nil_nil]
  | 0, j + 1 => by
    intro hi hj
    have hj' : j < a.length := by omega
    rw [backtrack_zero_succ, take_succ_reverse a j hj']
    rw [show (b.take 0).reverse = ([] : List (List Char)) from rfl]
    rw [revDiff_nil_cons, List.reverse_cons]
    rw [backtrack_eq b a 0 j (by omega) (by omega)]
    rw [show (b.take 0).reverse = ([] : List (List Char)) from rfl,
      List.getD_eq_getElem a [] hj']
  | i + 1, 0 => by
    intro hi hj
    have hi' : i < b.length := by omega
    rw [backtrack_succ_zero, take_succ_reverse b i hi']
    rw [show (a.take 0).reverse = ([] : List (List Char)) from rfl]
    rw [revDiff_cons_nil, List.reverse_cons]
    rw [backtrack_eq b a i 0 (by omega) (by omega)]
    rw [show (a.take 0).reverse = ([] : List (List Char)) from rfl,
      List.getD_eq_getElem b [] hi']
  | i + 1, j + 1 => by
    intro hi hj
    have hi' : i < b.length := by omega
    have hj' : j < a.length := by omega
    rw [backtrack_succ_succ, take_succ_reverse b i hi', take_succ_reverse a j hj',
      revDiff_cons_cons, List.getD_eq_getElem b [] hi', List.getD_eq_getElem a [] hj',
      lcsTab_eq b a i (j + 1) (by omega) (by omega),
      lcsTab_eq b a (i + 1) j (by omega) (by omega),
      take_succ_reverse b i hi', take_succ_reverse a j hj']
    by_cases h : b[i] = a[j]
    · rw [if_pos h, if_pos h, backtrack_eq b a i j (by omega) (by omega),
        List.reverse_cons]
    · rw [if_neg h, if_neg h]
      by_cases hc : lcsLength ((b.take i).reverse) (a[j] :: (a.take j).reverse) ≤
          lcsLength (b[i] :: (b.take i).reverse) ((a.take j).reverse)
      · rw [if_pos hc, if_pos hc, backtrack_eq b a (i + 1) j (by omega) (by omega),
          take_succ_reverse b i hi', List.reverse_cons]
      · rw [if_neg hc, if_neg hc, backtrack_eq b a i (j + 1) (by omega) (by omega),
          take_succ_reverse a j hj', List.reverse_cons]
termination_by i j => (i, j)

theorem backtrack_full (b a : List (List Char)) :
    backtrack b a b.length a.length = (revDiff b.reverse a.reverse).reverse := by
  rw [backtrack_eq b a b.length a.length (le_refl _) (le_refl _),
    List.take_length, List.take_length]

theorem revDiff_countP_unchanged : ∀ (x y : List (List Char)),
    (revDiff x y).countP (fun e => e.type == TextDiffType.unchanged) = lcsLength x y
  | [], [] => by simp [revDiff_nil_nil, lcsLength_nil_left]
  | [], y :: ys => by
    rw [revDiff_nil_cons, List.countP_cons]
    simp [revDiff_countP_unchanged [] ys, lcsLength_nil_left]
  | x :: xs, [] => by
    rw [revDiff_cons_nil, List.countP_cons]
    simp [revDiff_countP_unchanged xs [], lcsLength_nil_right]
  | x :: xs, y :: ys => by
    rw [revDiff_cons_cons, lcsLength_cons_cons]
    by_cases h : x = y
    · rw [if_pos h, if_pos h, List.countP_cons]
      simp [revDiff_countP_unchanged xs ys]
    · rw [if_neg h, if_neg h]
      by_cases hc : lcsLength xs (y :: ys) ≤ lcsLength (x :: xs) ys
      · rw [if_pos hc, List.countP_cons, max_eq_right hc]
        simp [revDiff_countP_unchanged (x :: xs) ys]
      · rw [if_neg hc, List.countP_cons, max_eq_left (le_of_not_le hc)]
        simp [revDiff_countP_unchanged xs (y :: ys)]
termination_by x y => (x.length, y.length)

theorem revDiff_filter_before : ∀ (x y : List (List Char)),
    ((revDiff x y).filter (fun e => e.type == TextDiffType.remove ||
        e.type == TextDiffType.unchanged)).map (·.value) = x
  | [], [] => by simp [revDiff_nil_nil]
  | [], y :: ys => by
    rw [revDiff_nil_cons, List.filter_cons]
    simpa using revDiff_filter_before [] ys
  | x :: xs, [] => by
    rw [revDiff_cons_nil, List.filter_cons]
    simpa using revDiff_filter_before xs []
  | x :: xs, y :: ys => by
    rw [revDiff_cons_cons]
    by_cases h : x = y
    · rw [if_pos h, List.filter_cons]
      simpa using revDiff_filter_before xs ys
    · rw [if_neg h]
      by_cases hc : lcsLength xs (y :: ys) ≤ lcsLength (x :: xs) ys
      · rw [if_pos hc, List.filter_cons]
        simpa using revDiff_filter_before (x :: xs) ys
      · rw [if_neg hc, List.filter_cons]
        simpa using revDiff_filter_before xs (y :: ys)
termination_by x y => (x.length, y.length)

theorem revDiff_filter_after : ∀ (x y : List (List Char)),
    ((revDiff x y).filter (fun e => e.type == TextDiffType.add ||
        e.type == TextDiffType.unchanged)).map (·.value) = y
  | [], [] => by simp [revDiff_nil_nil]
  | [], y :: ys => by
    rw [revDiff_nil_cons, List.filter_cons]
    simpa using revDiff_filter_after [] ys
  | x :: xs, [] => by
    rw [revDiff_cons_nil, List.filter_cons]
    simpa using revDiff_filter_after xs []
  | x :: xs, y :: ys => by
    rw [revDiff_cons_cons]
    by_cases h : x = y
    · rw [if_pos h, List.filter_cons]
      have := revDiff_filter_after xs ys
      simp [this, h]
    · rw [if_neg h]
      by_cases hc : lcsLength xs (y :: ys) ≤ lcsLength (x :: xs) ys
      · rw [if_pos hc, List.filter_cons]
        simpa using revDiff_filter_after (x :: xs) ys
      · rw [if_neg hc, List.filter_cons]
        simpa using revDiff_filter_after xs (y :: ys)
termination_by x y => (x.length, y.length)

theorem revDiff_append_left (w : List (List Char)) (x y : List (List Char)) :
    revDiff (w ++ x) (w ++ y) =
      w.map (fun l => (⟨.unchanged, l⟩ : DiffEntry)) ++ revDiff x y := by
  induction w with
  | nil => simp
  | cons w0 w' ih =>
    rw [List.cons_append, List.cons_append, revDiff_cons_cons, if_pos rfl, ih]
    simp

theorem revDiff_self (q : List (List Char)) :
    revDiff q q = q.map (fun l => (⟨.unchanged, l⟩ : DiffEntry)) := by
  have h := revDiff_append_left q [] []
  simpa [revDiff_nil_nil] using h

theorem revDiff_replace (u v : List Char) (q : List (List Char)) (huv : u ≠ v)
    (hq : q.head? ≠ some u) :
    revDiff (u :: q) (v :: q) =
      ⟨.add, v⟩ :: ⟨.remove, u⟩ :: q.map (fun l => (⟨.unchanged, l⟩ : DiffEntry)) := by
  rw [revDiff_cons_cons, if_neg huv, lcsLength_cons_self_right v q,
    lcsLength_cons_self_left u q, if_pos (le_refl _)]
  congr 1
  cases q with
  | nil =>
    rw [revDiff_cons_nil, revDiff_nil_nil]
    rfl
  | cons q0 qs =>
    have hu0 : u ≠ q0 := fun h => hq (by simp [h])
    rw [revDiff_cons_cons, if_neg hu0]
    have hcond : ¬ (lcsLength (q0 :: qs) (q0 :: qs) ≤ lcsLength (u :: q0 :: qs) qs) := by
      rw [lcsLength_self]
      have := lcsLength_le_right (u :: q0 :: qs) qs
      simp only [List.length_cons] at *
      omega
    rw [if_neg hcond, revDiff_self]

theorem numberFrom_countP (p : TextDiffType → Bool) : ∀ (n : Nat) (l : List DiffEntry),
    (numberFrom n l).countP (fun e => p e.type) = l.countP (fun e => p e.type)
  | _, [] => rfl
  | n, e :: r => by
    rw [numberFrom, List.countP_cons, List.countP_cons, numberFrom_countP p (n + 1) r]

theorem numberFrom_filter_value (p : TextDiffType → Bool) : ∀ (n : Nat) (l : List DiffEntry),
    ((numberFrom n l).filter (fun e => p e.type)).map (·.value) =
      (l.filter (fun e => p e.type)).map (·.value)
  | _, [] => rfl
  | n, e :: r => by
    rw [numberFrom, List.filter_cons, List.filter_cons]
    by_cases hp : p e.type
    · simp [hp, numberFrom_filter_value p (n + 1) r]
    · simp [hp, numberFrom_filter_value p (n + 1) r]

/-- C3: the number of `unchanged` entries in the output of `diffText` equals
the longest-common-subsequence length of the two line arrays obtained by
splitting the inputs (an empty string splitting to zero lines); the second and
third conjuncts certify that `lcsLength` is indeed the LCS length: it is
attained by a common sublist and no common sublist is longer. -/
theorem claim_C3 (beforeContent afterContent : List Char) :
    (diffText beforeContent afterContent).countP
        (fun e => e.type == TextDiffType.unchanged) =
      lcsLength (linesOf beforeContent) (linesOf afterContent) ∧
    (∃ w, List.Sublist w (linesOf beforeContent) ∧
      List.Sublist w (linesOf afterContent) ∧
      w.length = lcsLength (linesOf beforeContent) (linesOf afterContent)) ∧
    (∀ w, List.Sublist w (linesOf beforeContent) →
      List.Sublist w (linesOf afterContent) →
      w.length ≤ lcsLength (linesOf beforeContent) (linesOf afterContent)) := by
  refine ⟨?_, lcsLength_exists _ _, fun w h1 h2 => lcsLength_le_of_sublists _ _ w h1 h2⟩
  rw [diffText]
  split
  next hab =>
    rw [linesOf, if_pos hab.1, linesOf, if_pos hab.2]
    simp [lcsLength_nil_left]
  next hab =>
    show (buildDiffFromLCS (linesOf beforeContent) (linesOf afterContent)).countP _ = _
    rw [buildDiffFromLCS,
      numberFrom_countP (fun t => t == TextDiffType.unchanged),
      backtrack_full, List.countP_reverse, revDiff_countP_unchanged, lcsLength_reverse]

/-- Witness for C3's optimality conjunct at a concrete input: the single
common line of `"a\nb"` and `"b\nc"`. -/
theorem claim_C3_witness :
    List.Sublist [['b']] (linesOf "a\nb".data) ∧
    List.Sublist [['b']] (linesOf "b\nc".data) ∧
    ([(['b'] : List Char)] : List (List Char)).length ≤
      lcsLength (linesOf "a\nb".data) (linesOf "b\nc".data) :=
  ⟨by decide, by decide,
   (claim_C3 "a\nb".data "b\nc".data).2.2 [['b']] (by decide) (by decide)⟩

/-- C9: projecting the `diffText` output onto `remove`-or-`unchanged` entries
gives exactly the before line array in order, and projecting onto
`add`-or-`unchanged` entries gives exactly the after line array in order. -/
theorem claim_C9 (beforeContent afterContent : List Char) :
    ((diffText beforeContent afterContent).filter
        (fun e => e.type == TextDiffType.remove ||
          e.type == TextDiffType.unchanged)).map (·.value) =
      linesOf beforeContent ∧
    ((diffText beforeContent afterContent).filter
        (fun e => e.type == TextDiffType.add ||
          e.type == TextDiffType.unchanged)).map (·.value) =
      linesOf afterContent := by
  constructor
  · rw [diffText]
    split
    next hab =>
      rw [linesOf, if_pos hab.1]
      simp
    next hab =>
      show ((buildDiffFromLCS (linesOf beforeContent) (linesOf afterContent)).filter _).map _ = _
      rw [buildDiffFromLCS,
        numberFrom_filter_value
          (fun t => t == TextDiffType.remove || t == TextDiffType.unchanged),
        backtrack_full, List.filter_reverse, List.map_reverse, revDiff_filter_before,
        List.reverse_reverse]
  · rw [diffText]
    split
    next hab =>
      rw [linesOf, if_pos hab.2]
      simp
    next hab =>
      show ((buildDiffFromLCS (linesOf beforeContent) (linesOf afterContent)).filter _).map _ = _
      rw [buildDiffFromLCS,
        numberFrom_filter_value
          (fun t => t == TextDiffType.add || t == TextDiffType.unchanged),
        backtrack_full, List.filter_reverse, List.map_reverse, revDiff_filter_after,
        List.reverse_reverse]

/-- C4 (amended): in the backtracking, at every mismatch with both cursors
positive, the `add` step is taken exactly when `lcs[i][j-1] >= lcs[i-1][j]`;
and when a single line is replaced between two otherwise identical line
arrays, the output is the common prefix unchanged, then the `remove` entry for
the old line immediately followed by the `add` entry for the new line, then
the common suffix unchanged — provided the replaced line differs from the line
immediately preceding it (the amendment the counterexample forces). -/
theorem claim_C4 :
    (∀ (b a : List (List Char)) (i j : Nat), b.getD i [] ≠ a.getD j [] →
      (backtrack b a (i + 1) (j + 1) =
          backtrack b a (i + 1) j ++ [⟨.add, a.getD j []⟩] ↔
        lcsTab b a i (j + 1) ≤ lcsTab b a (i + 1) j)) ∧
    (∀ (p s : List (List Char)) (u v : List Char), u ≠ v → p.getLast? ≠ some u →
      buildDiffFromLCS (p ++ u :: s) (p ++ v :: s) =
        numberFrom 1 (p.map (fun l => (⟨.unchanged, l⟩ : DiffEntry)) ++
          ⟨.remove, u⟩ :: ⟨.add, v⟩ ::
            s.map (fun l => (⟨.unchanged, l⟩ : DiffEntry)))) := by
  constructor
  · intro b a i j hne
    rw [backtrack_succ_succ, if_neg hne]
    constructor
    · intro heq
      by_contra hc
      rw [if_neg hc] at heq
      have hlast := congrArg List.getLast? heq
      rw [List.getLast?_concat, List.getLast?_concat] at hlast
      simp at hlast
    · intro hc
      rw [if_pos hc]
  · intro p s u v huv hlast
    rw [buildDiffFromLCS, backtrack_full]
    congr 1
    rw [show (p ++ u :: s).reverse = s.reverse ++ (u :: p.reverse) from by simp,
        show (p ++ v :: s).reverse = s.reverse ++ (v :: p.reverse) from by simp]
    rw [revDiff_append_left,
      revDiff_replace u v p.reverse huv (by rw [List.head?_reverse]; exact hlast)]
    simp [List.reverse_append, List.map_reverse]

/-- C4 counterexample: replacing the second line of `"x\nx"` by `"y"` replaces
a single line between otherwise identical inputs, yet the output is
remove/unchanged/add — the `remove` entry is not immediately followed by the
`add` entry, refuting the claim as stated. -/
theorem claim_C4_counterexample :
    diffText "x\nx".data "x\ny".data =
      [⟨.remove, ['x'], 1⟩, ⟨.unchanged, ['x'], 2⟩, ⟨.add, ['y'], 3⟩] ∧
    ¬ ∃ q ∈ (diffText "x\nx".data "x\ny".data).zip
        (diffText "x\nx".data "x\ny".data).tail,
      (q : TextDiff × TextDiff).1.type = TextDiffType.remove ∧
        q.2.type = TextDiffType.add := by
  have h : diffText "x\nx".data "x\ny".data =
      [⟨.remove, ['x'], 1⟩, ⟨.unchanged, ['x'], 2⟩, ⟨.add, ['y'], 3⟩] := by
    simp [diffText, buildDiffFromLCS, backtrack, lcsTab, splitNL, numberFrom]
  refine ⟨h, ?_⟩
  rw [h]
  decide

/-- Witness for C4 at a concrete mismatch cell and a concrete one-line
replacement. -/
theorem claim_C4_witness :
    ([['x']] : List (List Char)).getD 0 [] ≠ ([['y']] : List (List Char)).getD 0 [] ∧
    (backtrack [['x']] [['y']] 1 1 =
        backtrack [['x']] [['y']] 1 0 ++ [⟨.add, ([['y']] : List (List Char)).getD 0 []⟩] ↔
      lcsTab [['x']] [['y']] 0 1 ≤ lcsTab [['x']] [['y']] 1 0) ∧
    (['x'] : List Char) ≠ ['y'] ∧
    (([] : List (List Char)).getLast? ≠ some ['x']) ∧
    buildDiffFromLCS ([] ++ ['x'] :: []) ([] ++ ['y'] :: []) =
      numberFrom 1 (List.map (fun l => (⟨.unchanged, l⟩ : DiffEntry)) [] ++
        ⟨.remove, ['x']⟩ :: ⟨.add, ['y']⟩ ::
          List.map (fun l => (⟨.unchanged, l⟩ : DiffEntry)) []) :=
  ⟨by decide, claim_C4.1 [['x']] [['y']] 0 0 (by decide),
   by decide, by decide, claim_C4.2 [] [] ['x'] ['y'] (by decide) (by decide)⟩

theorem findTitleMatch_some {ma : List Nat} {key : List Char} :
    ∀ {l : List (Nat × MarkdownSlide γ)} {j : Nat} {s : MarkdownSlide γ},
      findTitleMatch ma key l = some (j, s) →
      (j, s) ∈ l ∧ j ∉ ma ∧ normalizeTitleForMatching s.title = key := by
  intro l
  induction l with
  | nil =>
    intro j s h
    simp [findTitleMatch] at h
  | cons p rest ih =>
    intro j s h
    obtain ⟨j0, s0⟩ := p
    rw [findTitleMatch] at h
    split at h
    next hc =>
      cases h
      exact ⟨List.mem_cons_self _ _, hc.1, hc.2⟩
    next =>
      obtain ⟨hm, h2, h3⟩ := ih h
      exact ⟨List.mem_cons_of_mem _ hm, h2, h3⟩

theorem enumF_mem_bounds : ∀ (l : List α) (n j : Nat) (s : α), (j, s) ∈ enumF n l →
    n ≤ j ∧ j < n + l.length ∧ l[j - n]? = some s
  | [], n, j, s => by simp [enumF]
  | a :: rest, n, j, s => by
    intro h
    rw [enumF] at h
    rcases List.mem_cons.1 h with heq | h
    · simp only [Prod.mk.injEq] at heq
      obtain ⟨rfl, rfl⟩ := heq
      refine ⟨le_refl _, by simp, ?_⟩
      simp
    · obtain ⟨h1, h2, h3⟩ := enumF_mem_bounds rest (n + 1) j s h
      refine ⟨by omega, by simp only [List.length_cons]; omega, ?_⟩
      have hj : j - n = (j - (n + 1)) + 1 := by omega
      rw [hj]
      simpa using h3

theorem findTitleMatch_enumF_spec {ma : List Nat} {key : List Char}
    {A : List (MarkdownSlide γ)} {j : Nat} {s : MarkdownSlide γ}
    (h : findTitleMatch ma key (enumF 0 A) = some (j, s)) :
    j < A.length ∧ j ∉ ma ∧ A[j]? = some s ∧
      normalizeTitleForMatching s.title = key := by
  obtain ⟨hm, h2, h3⟩ := findTitleMatch_some h
  obtain ⟨_, hb, hg⟩ := enumF_mem_bounds A 0 j s hm
  exact ⟨by omega, h2, by simpa using hg, h3⟩

theorem phase1_nil (A : List (MarkdownSlide γ)) (i : Nat) (ma : List Nat) :
    phase1 A [] i ma = ([], ma) := rfl

theorem phase1_cons_some (A : List (MarkdownSlide γ)) (bs0 : MarkdownSlide γ)
    (rest : List (MarkdownSlide γ)) (i : Nat) (ma : List Nat) (j : Nat)
    (aSlide : MarkdownSlide γ)
    (h : findTitleMatch ma (normalizeTitleForMatching bs0.title) (enumF 0 A) =
      some (j, aSlide)) :
    phase1 A (bs0 :: rest) i ma =
      ((⟨some bs0, some aSlide, some i, some j, .title⟩ : SlideMatch γ) ::
          (phase1 A rest (i + 1) (ma ++ [j])).1,
        (phase1 A rest (i + 1) (ma ++ [j])).2) := by
  rw [phase1, h]

theorem phase1_cons_none (A : List (MarkdownSlide γ)) (bs0 : MarkdownSlide γ)
    (rest : List (MarkdownSlide γ)) (i : Nat) (ma : List Nat)
    (h : findTitleMatch ma (normalizeTitleForMatching bs0.title) (enumF 0 A) = none) :
    phase1 A (bs0 :: rest) i ma = phase1 A rest (i + 1) ma := by
  rw [phase1, h]

theorem phase1_matchedA_eq (A : List (MarkdownSlide γ)) :
    ∀ (bs : List (MarkdownSlide γ)) (i : Nat) (ma : List Nat),
      (phase1 A bs i ma).2 = ma ++ (phase1 A bs i ma).1.filterMap (·.afterIndex)
  | [], i, ma => by simp [phase1_nil]
  | bs0 :: rest, i, ma => by
    cases hf : findTitleMatch ma (normalizeTitleForMatching bs0.title) (enumF 0 A) with
    | none =>
      rw [phase1_cons_none A bs0 rest i ma hf]
      exact phase1_matchedA_eq A rest (i + 1) ma
    | some p =>
      obtain ⟨j, aSlide⟩ := p
      rw [phase1_cons_some A bs0 rest i ma j aSlide hf,
        phase1_matchedA_eq A rest (i + 1) (ma ++ [j])]
      simp

theorem phase1_beforeIdx_bounds (A : List (MarkdownSlide γ)) :
    ∀ (bs : List (MarkdownSlide γ)) (i : Nat) (ma : List Nat),
      ∀ v ∈ (phase1 A bs i ma).1.filterMap (·.beforeIndex), i ≤ v ∧ v < i + bs.length
  | [], i, ma => by simp [phase1_nil]
  | bs0 :: rest, i, ma => by
    cases hf : findTitleMatch ma (normalizeTitleForMatching bs0.title) (enumF 0 A) with
    | none =>
      rw [phase1_cons_none A bs0 rest i ma hf]
      intro v hv
      have := phase1_beforeIdx_bounds A rest (i + 1) ma v hv
      simp only [List.length_cons]
      omega
    | some p =>
      obtain ⟨j, aSlide⟩ := p
      rw [phase1_cons_some A bs0 rest i ma j aSlide hf]
      intro v hv
      simp only [List.filterMap_cons] at hv
      rcases List.mem_cons.1 hv with rfl | hv
      · simp only [List.length_cons]
        omega
      · have := phase1_beforeIdx_bounds A rest (i + 1) (ma ++ [j]) v hv
        simp only [List.length_cons]
        omega

theorem phase1_beforeIdx_pairwise (A : List (MarkdownSlide γ)) :
    ∀ (bs : List (MarkdownSlide γ)) (i : Nat) (ma : List Nat),
      ((phase1 A bs i ma).1.filterMap (·.beforeIndex)).Pairwise (· < ·)
  | [], i, ma => by simp [phase1_nil]
  | bs0 :: rest, i, ma => by
    cases hf : findTitleMatch ma (normalizeTitleForMatching bs0.title) (enumF 0 A) with
    | none =>
      rw [phase1_cons_none A bs0 rest i ma hf]
      exact phase1_beforeIdx_pairwise A rest (i + 1) ma
    | some p =>
      obtain ⟨j, aSlide⟩ := p
      rw [phase1_cons_some A bs0 rest i ma j aSlide hf]
      simp only [List.filterMap_cons]
      refine List.Pairwise.cons ?_ (phase1_beforeIdx_pairwise A rest (i + 1) (ma ++ [j]))
      intro v hv
      have := phase1_beforeIdx_bounds A rest (i + 1) (ma ++ [j]) v hv
      omega

theorem phase1_afterIdx_mem (A : List (MarkdownSlide γ)) :
    ∀ (bs : List (MarkdownSlide γ)) (i : Nat) (ma : List Nat),
      ∀ j ∈ (phase1 A bs i ma).1.filterMap (·.afterIndex), j < A.length ∧ j ∉ ma
  | [], i, ma => by simp [phase1_nil]
  | bs0 :: rest, i, ma => by
    cases hf : findTitleMatch ma (normalizeTitleForMatching bs0.title) (enumF 0 A) with
    | none =>
      rw [phase1_cons_none A bs0 rest i ma hf]
      exact phase1_afterIdx_mem A rest (i + 1) ma
    | some p =>
      obtain ⟨j0, aSlide⟩ := p
      rw [phase1_cons_some A bs0 rest i ma j0 aSlide hf]
      intro v hv
      simp only [List.filterMap_cons] at hv
      rcases List.mem_cons.1 hv with rfl | hv
      · obtain ⟨hlt, hnm, _, _⟩ := findTitleMatch_enumF_spec hf
        exact ⟨hlt, hnm⟩
      · obtain ⟨hlt, hnm⟩ := phase1_afterIdx_mem A rest (i + 1) (ma ++ [j0]) v hv
        exact ⟨hlt, fun hv' => hnm (List.mem_append_left _ hv')⟩

theorem phase1_afterIdx_nodup (A : List (MarkdownSlide γ)) :
    ∀ (bs : List (MarkdownSlide γ)) (i : Nat) (ma : List Nat),
      ((phase1 A bs i ma).1.filterMap (·.afterIndex)).Nodup
  | [], i, ma => by simp [phase1_nil]
  | bs0 :: rest, i, ma => by
    cases hf : findTitleMatch ma (normalizeTitleForMatching bs0.title) (enumF 0 A) with
    | none =>
      rw [phase1_cons_none A bs0 rest i ma hf]
      exact phase1_afterIdx_nodup A rest (i + 1) ma
    | some p =>
      obtain ⟨j0, aSlide⟩ := p
      rw [phase1_cons_some A bs0 rest i ma j0 aSlide hf]
      simp only [List.filterMap_cons]
      refine List.Pairwise.cons ?_ (phase1_afterIdx_nodup A rest (i + 1) (ma ++ [j0]))
      intro v hv
      obtain ⟨_, hnm⟩ := phase1_afterIdx_mem A rest (i + 1) (ma ++ [j0]) v hv
      intro hj
      exact hnm (by rw [← hj]; exact List.mem_append_right _ (List.mem_cons_self _ _))

theorem countP_beq_filterMap (f : SlideMatch γ → Option Nat) (i : Nat) :
    ∀ (l : List (SlideMatch γ)),
      l.countP (fun e => f e == some i) = (l.filterMap f).count i
  | [] => rfl
  | e :: r => by
    rw [List.countP_cons]
    cases hf : f e with
    | none =>
      rw [List.filterMap_cons_none hf]
      simp [hf, countP_beq_filterMap f i r]
    | some v =>
      rw [List.filterMap_cons_some hf, List.count_cons]
      by_cases hvi : v = i
      · subst hvi
        simp [hf, countP_beq_filterMap f v r]
      · simp [hf, hvi, countP_beq_filterMap f i r]

theorem count_nodup_indicator {l : List Nat} (h : l.Nodup) (v : Nat) :
    l.count v = if v ∈ l then 1 else 0 := by
  by_cases hm : v ∈ l
  · rw [if_pos hm]
    exact List.count_eq_one_of_mem h hm
  · rw [if_neg hm]
    exact List.count_eq_zero_of_not_mem hm

theorem matchedB1_nodup (b a : List (MarkdownSlide γ)) : (matchedB1 b a).Nodup := by
  unfold matchedB1 phase1Matches
  exact List.Pairwise.imp (fun h => Nat.ne_of_lt h) (phase1_beforeIdx_pairwise a b 0 [])

theorem matchedB1_lt (b a : List (MarkdownSlide γ)) :
    ∀ v ∈ matchedB1 b a, v < b.length := by
  intro v hv
  unfold matchedB1 phase1Matches at hv
  have := phase1_beforeIdx_bounds a b 0 [] v hv
  omega

theorem matchedA1_eq (b a : List (MarkdownSlide γ)) :
    matchedA1 b a = (phase1Matches b a).filterMap (·.afterIndex) := by
  unfold matchedA1 phase1Matches
  simpa using phase1_matchedA_eq a b 0 []

theorem matchedA1_nodup (b a : List (MarkdownSlide γ)) : (matchedA1 b a).Nodup := by
  rw [matchedA1_eq]
  unfold phase1Matches
  exact phase1_afterIdx_nodup a b 0 []

theorem matchedA1_lt (b a : List (MarkdownSlide γ)) :
    ∀ v ∈ matchedA1 b a, v < a.length := by
  intro v hv
  rw [matchedA1_eq] at hv
  unfold phase1Matches at hv
  exact (phase1_afterIdx_mem a b 0 [] v hv).1

theorem unmatchedB_nodup (b a : List (MarkdownSlide γ)) : (unmatchedB b a).Nodup := by
  unfold unmatchedB
  exact (List.nodup_range _).filter _

theorem unmatchedA_nodup (b a : List (MarkdownSlide γ)) : (unmatchedA b a).Nodup := by
  unfold unmatchedA
  exact (List.nodup_range _).filter _

theorem mem_unmatchedB (b a : List (MarkdownSlide γ)) (i : Nat) :
    i ∈ unmatchedB b a ↔ i < b.length ∧ i ∉ matchedB1 b a := by
  unfold unmatchedB
  simp [List.mem_filter, List.mem_range]

theorem mem_unmatchedA (b a : List (MarkdownSlide γ)) (j : Nat) :
    j ∈ unmatchedA b a ↔ j < a.length ∧ j ∉ matchedA1 b a := by
  unfold unmatchedA
  simp [List.mem_filter, List.mem_range]

theorem take_min_length_le_B (b a : List (MarkdownSlide γ)) :
    ((unmatchedB b a).take (minUnmatched b a)).length ≤
      ((unmatchedA b a).take (minUnmatched b a)).length := by
  simp only [List.length_take, minUnmatched]
  omega

theorem phase2_filterMap_before (b a : List (MarkdownSlide γ)) :
    (phase2Matches b a).filterMap (·.beforeIndex) =
      (unmatchedB b a).take (minUnmatched b a) := by
  unfold phase2Matches
  rw [List.filterMap_map]
  rw [show ((fun m : SlideMatch γ => m.beforeIndex) ∘
      (fun p : Nat × Nat =>
        (⟨b[p.1]?, a[p.2]?, some p.1, some p.2, .position⟩ : SlideMatch γ))) =
    (some ∘ Prod.fst) from rfl]
  rw [show List.filterMap (some ∘ Prod.fst) = List.map Prod.fst from by
    funext l
    induction l with
    | nil => rfl
    | cons p r ih => simp [ih]]
  exact List.map_fst_zip _ _ (take_min_length_le_B b a)

theorem take_min_length_le_A (b a : List (MarkdownSlide γ)) :
    ((unmatchedA b a).take (minUnmatched b a)).length ≤
      ((unmatchedB b a).take (minUnmatched b a)).length := by
  simp only [List.length_take, minUnmatched]
  omega

theorem phase2_filterMap_after (b a : List (MarkdownSlide γ)) :
    (phase2Matches b a).filterMap (·.afterIndex) =
      (unmatchedA b a).take (minUnmatched b a) := by
  unfold phase2Matches
  rw [List.filterMap_map]
  rw [show ((fun m : SlideMatch γ => m.afterIndex) ∘
      (fun p : Nat × Nat =>
        (⟨b[p.1]?, a[p.2]?, some p.1, some p.2, .position⟩ : SlideMatch γ))) =
    (some ∘ Prod.snd) from rfl]
  rw [show List.filterMap (some ∘ Prod.snd) = List.map Prod.snd from by
    funext l
    induction l with
    | nil => rfl
    | cons p r ih => simp [ih]]
  exact List.map_snd_zip _ _ (take_min_length_le_A b a)

theorem phase3Removed_filterMap_before (b a : List (MarkdownSlide γ)) :
    (phase3Removed b a).filterMap (·.beforeIndex) =
      (List.range b.length).filter fun i => decide (i ∉ matchedB2 b a) := by
  unfold phase3Removed
  rw [List.filterMap_map]
  rw [show ((fun m : SlideMatch γ => m.beforeIndex) ∘
      (fun i : Nat => (⟨b[i]?, none, some i, none, .none⟩ : SlideMatch γ))) = some from rfl]
  exact List.filterMap_some _

theorem phase3Added_filterMap_after (b a : List (MarkdownSlide γ)) :
    (phase3Added b a).filterMap (·.afterIndex) =
      (List.range a.length).filter fun j => decide (j ∉ matchedA2 b a) := by
  unfold phase3Added
  rw [List.filterMap_map]
  rw [show ((fun m : SlideMatch γ => m.afterIndex) ∘
      (fun j : Nat => (⟨none, a[j]?, none, some j, .none⟩ : SlideMatch γ))) = some from rfl]
  exact List.filterMap_some _

theorem phase3Added_filterMap_before (b a : List (MarkdownSlide γ)) :
    (phase3Added b a).filterMap (·.beforeIndex) = [] := by
  unfold phase3Added
  rw [List.filterMap_map]
  rw [show ((fun m : SlideMatch γ => m.beforeIndex) ∘
      (fun j : Nat => (⟨none, a[j]?, none, some j, .none⟩ : SlideMatch γ))) =
    (fun _ => none) from rfl]
  induction (List.range a.length).filter fun j => decide (j ∉ matchedA2 b a) with
  | nil => rfl
  | cons x xs ih => simp [ih]

theorem phase3Removed_filterMap_after (b a : List (MarkdownSlide γ)) :
    (phase3Removed b a).filterMap (·.afterIndex) = [] := by
  unfold phase3Removed
  rw [List.filterMap_map]
  rw [show ((fun m : SlideMatch γ => m.afterIndex) ∘
      (fun i : Nat => (⟨b[i]?, none, some i, none, .none⟩ : SlideMatch γ))) =
    (fun _ => none) from rfl]
  induction (List.range b.length).filter fun i => decide (i ∉ matchedB2 b a) with
  | nil => rfl
  | cons x xs ih => simp [ih]

theorem mem_residueB (b a : List (MarkdownSlide γ)) (v : Nat) :
    v ∈ ((List.range b.length).filter fun x => decide (x ∉ matchedB2 b a)) ↔
      v ∈ (unmatchedB b a).drop (minUnmatched b a) := by
  have huB : (unmatchedB b a).take (minUnmatched b a) ++
      (unmatchedB b a).drop (minUnmatched b a) = unmatchedB b a :=
    List.take_append_drop _ _
  constructor
  · intro hv
    simp only [List.mem_filter, List.mem_range, decide_eq_true_eq] at hv
    obtain ⟨hlt, hnm⟩ := hv
    have hnB1 : v ∉ matchedB1 b a := fun h =>
      hnm (by unfold matchedB2; exact List.mem_append_left _ h)
    have hnTake : v ∉ (unmatchedB b a).take (minUnmatched b a) := fun h =>
      hnm (by unfold matchedB2; exact List.mem_append_right _ h)
    have hvuB : v ∈ unmatchedB b a := (mem_unmatchedB b a v).2 ⟨hlt, hnB1⟩
    rw [← huB] at hvuB
    rcases List.mem_append.1 hvuB with h | h
    · exact absurd h hnTake
    · exact h
  · intro hv
    have hvuB : v ∈ unmatchedB b a := (List.drop_sublist _ _).subset hv
    obtain ⟨hlt, hnB1⟩ := (mem_unmatchedB b a v).1 hvuB
    have hnodup := unmatchedB_nodup b a
    rw [← huB] at hnodup
    have hdisj := (List.nodup_append.1 hnodup).2.2
    have hnTake : v ∉ (unmatchedB b a).take (minUnmatched b a) := fun h => hdisj h hv
    simp only [List.mem_filter, List.mem_range, decide_eq_true_eq]
    refine ⟨hlt, fun h => ?_⟩
    unfold matchedB2 at h
    rcases List.mem_append.1 h with h | h
    · exact hnB1 h
    · exact hnTake h

theorem mem_residueA (b a : List (MarkdownSlide γ)) (v : Nat) :
    v ∈ ((List.range a.length).filter fun x => decide (x ∉ matchedA2 b a)) ↔
      v ∈ (unmatchedA b a).drop (minUnmatched b a) := by
  have huA : (unmatchedA b a).take (minUnmatched b a) ++
      (unmatchedA b a).drop (minUnmatched b a) = unmatchedA b a :=
    List.take_append_drop _ _
  constructor
  · intro hv
    simp only [List.mem_filter, List.mem_range, decide_eq_true_eq] at hv
    obtain ⟨hlt, hnm⟩ := hv
    have hnA1 : v ∉ matchedA1 b a := fun h =>
      hnm (by unfold matchedA2; exact List.mem_append_left _ h)
    have hnTake : v ∉ (unmatchedA b a).take (minUnmatched b a) := fun h =>
      hnm (by unfold matchedA2; exact List.mem_append_right _ h)
    have hvuA : v ∈ unmatchedA b a := (mem_unmatchedA b a v).2 ⟨hlt, hnA1⟩
    rw [← huA] at hvuA
    rcases List.mem_append.1 hvuA with h | h
    · exact absurd h hnTake
    · exact h
  · intro hv
    have hvuA : v ∈ unmatchedA b a := (List.drop_sublist _ _).subset hv
    obtain ⟨hlt, hnA1⟩ := (mem_unmatchedA b a v).1 hvuA
    have hnodup := unmatchedA_nodup b a
    rw [← huA] at hnodup
    have hdisj := (List.nodup_append.1 hnodup).2.2
    have hnTake : v ∉ (unmatchedA b a).take (minUnmatched b a) := fun h => hdisj h hv
    simp only [List.mem_filter, List.mem_range, decide_eq_true_eq]
    refine ⟨hlt, fun h => ?_⟩
    unfold matchedA2 at h
    rcases List.mem_append.1 h with h | h
    · exact hnA1 h
    · exact hnTake h

theorem findTitleMatch_enumF_minimal {ma : List Nat} {key : List Char} :
    ∀ (A : List (MarkdownSlide γ)) (n j : Nat) (s : MarkdownSlide γ),
      findTitleMatch ma key (enumF n A) = some (j, s) →
      ∀ j', n ≤ j' → j' < j → ∀ s', A[j' - n]? = some s' →
        normalizeTitleForMatching s'.title = key → j' ∈ ma
  | [], n, j, s => by
    intro h
    simp [enumF, findTitleMatch] at h
  | a0 :: rest, n, j, s => by
    intro h j' hn hj s' hget htitle
    rw [enumF, findTitleMatch] at h
    split at h
    next hc =>
      cases h
      omega
    next hc =>
      by_cases hj'n : j' = n
      · subst hj'n
        rw [Nat.sub_self] at hget
        simp at hget
        subst hget
        by_contra hma
        exact hc ⟨hma, htitle⟩
      · have hstep : j' - n = (j' - (n + 1)) + 1 := by omega
        rw [hstep] at hget
        exact findTitleMatch_enumF_minimal rest (n + 1) j s h j' (by omega) hj s'
          (by simpa using hget) htitle

theorem phase1_entry_spec (A B : List (MarkdownSlide γ)) :
    ∀ (bs : List (MarkdownSlide γ)) (i : Nat) (ma : List Nat), B.drop i = bs →
      ∀ (k : Nat) (e : SlideMatch γ), (phase1 A bs i ma).1[k]? = some e →
      ∃ i' j bslide aslide,
        e = ⟨some bslide, some aslide, some i', some j, .title⟩ ∧
        B[i']? = some bslide ∧ A[j]? = some aslide ∧
        normalizeTitleForMatching aslide.title = normalizeTitleForMatching bslide.title ∧
        ∀ j' < j, ∀ s', A[j']? = some s' →
          normalizeTitleForMatching s'.title = normalizeTitleForMatching bslide.title →
          j' ∈ ma ++ ((phase1 A bs i ma).1.take k).filterMap (·.afterIndex)
  | [], i, ma => by
    intro _ k e he
    rw [phase1_nil] at he
    simp at he
  | bs0 :: rest, i, ma => by
    intro hdrop k e he
    have hBi : B[i]? = some bs0 := by
      rw [← List.head?_drop, hdrop]
      rfl
    have hdrop' : B.drop (i + 1) = rest := by
      rw [← List.tail_drop, hdrop]
      rfl
    cases hf : findTitleMatch ma (normalizeTitleForMatching bs0.title) (enumF 0 A) with
    | none =>
      rw [phase1_cons_none A bs0 rest i ma hf] at he ⊢
      exact phase1_entry_spec A B rest (i + 1) ma hdrop' k e he
    | some p =>
      obtain ⟨j0, aslide0⟩ := p
      rw [phase1_cons_some A bs0 rest i ma j0 aslide0 hf] at he ⊢
      cases k with
      | zero =>
        simp only [List.getElem?_cons_zero] at he
        obtain rfl : (⟨some bs0, some aslide0, some i, some j0,
            .title⟩ : SlideMatch γ) = e := by
          injection he
        obtain ⟨_, _, hAj, htitle⟩ := findTitleMatch_enumF_spec hf
        refine ⟨i, j0, bs0, aslide0, rfl, hBi, hAj, htitle, ?_⟩
        intro j' hj' s' hget htit
        have := findTitleMatch_enumF_minimal A 0 j0 aslide0 hf j' (Nat.zero_le _) hj' s'
          (by simpa using hget) htit
        exact List.mem_append_left _ this
      | succ k' =>
        simp only [List.getElem?_cons_succ] at he
        obtain ⟨i', j, bslide, aslide, h1, h2, h3, h4, h5⟩ :=
          phase1_entry_spec A B rest (i + 1) (ma ++ [j0]) hdrop' k' e he
        refine ⟨i', j, bslide, aslide, h1, h2, h3, h4, ?_⟩
        intro j' hj' s' hget htit
        have hmem := h5 j' hj' s' hget htit
        rw [List.take_succ_cons, List.filterMap_cons]
        simp only [List.mem_append, List.mem_cons, List.mem_singleton] at hmem ⊢
        tauto

theorem matchSlides_countB (b a : List (MarkdownSlide γ)) (i : Nat) (hi : i < b.length) :
    (matchSlides b a).countP (fun m => m.beforeIndex == some i) = 1 := by
  rw [matchSlides, List.Perm.countP_eq _ (List.mergeSort_perm _ _),
    List.countP_append, List.countP_append, List.countP_append,
    countP_beq_filterMap (·.beforeIndex) i (phase1Matches b a),
    countP_beq_filterMap (·.beforeIndex) i (phase2Matches b a),
    countP_beq_filterMap (·.beforeIndex) i (phase3Removed b a),
    countP_beq_filterMap (·.beforeIndex) i (phase3Added b a),
    show (phase1Matches b a).filterMap (·.beforeIndex) = matchedB1 b a from rfl,
    phase2_filterMap_before, phase3Removed_filterMap_before, phase3Added_filterMap_before,
    List.count_nil]
  by_cases hmem : i ∈ matchedB1 b a
  · rw [List.count_eq_one_of_mem (matchedB1_nodup b a) hmem]
    have h2 : i ∉ (unmatchedB b a).take (minUnmatched b a) := fun h =>
      ((mem_unmatchedB b a i).1 (List.mem_of_mem_take h)).2 hmem
    have h3 : i ∉ ((List.range b.length).filter fun x => decide (x ∉ matchedB2 b a)) := by
      intro h
      simp only [List.mem_filter, List.mem_range, decide_eq_true_eq] at h
      exact h.2 (by unfold matchedB2; exact List.mem_append_left _ hmem)
    rw [List.count_eq_zero_of_not_mem h2, List.count_eq_zero_of_not_mem h3]
  · rw [List.count_eq_zero_of_not_mem hmem]
    have hiu : i ∈ unmatchedB b a := (mem_unmatchedB b a i).2 ⟨hi, hmem⟩
    have hsum : ((unmatchedB b a).take (minUnmatched b a)).count i +
        ((unmatchedB b a).drop (minUnmatched b a)).count i = 1 := by
      rw [← List.count_append, List.take_append_drop]
      exact List.count_eq_one_of_mem (unmatchedB_nodup b a) hiu
    have hres : ((List.range b.length).filter
          fun x => decide (x ∉ matchedB2 b a)).count i =
        ((unmatchedB b a).drop (minUnmatched b a)).count i := by
      rw [count_nodup_indicator ((List.nodup_range _).filter _) i,
        count_nodup_indicator
          (List.Nodup.sublist (List.drop_sublist _ _) (unmatchedB_nodup b a)) i,
        if_congr (mem_residueB b a i) rfl rfl]
    omega

theorem matchSlides_countA (b a : List (MarkdownSlide γ)) (j : Nat) (hj : j < a.length) :
    (matchSlides b a).countP (fun m => m.afterIndex == some j) = 1 := by
  rw [matchSlides, List.Perm.countP_eq _ (List.mergeSort_perm _ _),
    List.countP_append, List.countP_append, List.countP_append,
    countP_beq_filterMap (·.afterIndex) j (phase1Matches b a),
    countP_beq_filterMap (·.afterIndex) j (phase2Matches b a),
    countP_beq_filterMap (·.afterIndex) j (phase3Removed b a),
    countP_beq_filterMap (·.afterIndex) j (phase3Added b a),
    ← matchedA1_eq,
    phase2_filterMap_after, phase3Removed_filterMap_after, phase3Added_filterMap_after,
    List.count_nil]
  by_cases hmem : j ∈ matchedA1 b a
  · rw [List.count_eq_one_of_mem (matchedA1_nodup b a) hmem]
    have h2 : j ∉ (unmatchedA b a).take (minUnmatched b a) := fun h =>
      ((mem_unmatchedA b a j).1 (List.mem_of_mem_take h)).2 hmem
    have h3 : j ∉ ((List.range a.length).filter fun x => decide (x ∉ matchedA2 b a)) := by
      intro h
      simp only [List.mem_filter, List.mem_range, decide_eq_true_eq] at h
      exact h.2 (by unfold matchedA2; exact List.mem_append_left _ hmem)
    rw [List.count_eq_zero_of_not_mem h2, List.count_eq_zero_of_not_mem h3]
  · rw [List.count_eq_zero_of_not_mem hmem]
    have hju : j ∈ unmatchedA b a := (mem_unmatchedA b a j).2 ⟨hj, hmem⟩
    have hsum : ((unmatchedA b a).take (minUnmatched b a)).count j +
        ((unmatchedA b a).drop (minUnmatched b a)).count j = 1 := by
      rw [← List.count_append, List.take_append_drop]
      exact List.count_eq_one_of_mem (unmatchedA_nodup b a) hju
    have hres : ((List.range a.length).filter
          fun x => decide (x ∉ matchedA2 b a)).count j =
        ((unmatchedA b a).drop (minUnmatched b a)).count j := by
      rw [count_nodup_indicator ((List.nodup_range _).filter _) j,
        count_nodup_indicator
          (List.Nodup.sublist (List.drop_sublist _ _) (unmatchedA_nodup b a)) j,
        if_congr (mem_residueA b a j) rfl rfl]
    omega

theorem tallySummary_sum (l : List (SlideDiff γ)) (s : DiffSummary) :
    (tallySummary s l).added + (tallySummary s l).removed + (tallySummary s l).modified +
        (tallySummary s l).unchanged + (tallySummary s l).moved =
      s.added + s.removed + s.modified + s.unchanged + s.moved + l.length := by
  induction l generalizing s with
  | nil => simp [tallySummary]
  | cons d r ih =>
    rw [tallySummary, ih]
    cases d.status <;> simp [bumpSummary] <;> omega

/-- C5: in phase 1 of `matchSlides`, before-slides are scanned in ascending
index order (the recorded before-indices are strictly increasing) and each is
paired with the lowest-indexed not-yet-matched after-slide whose normalized
title equals its own (any smaller title-equal after-index already belongs to
an earlier phase-1 match); in particular, in the duplicate-titles scenario the
first correspondence is classified `modified` and the second `unchanged`. -/
theorem claim_C5 (b a : List (MarkdownSlide γ)) :
    ((phase1Matches b a).filterMap (·.beforeIndex)).Pairwise (· < ·) ∧
    (∀ (k : Nat) (e : SlideMatch γ), (phase1Matches b a)[k]? = some e →
      ∃ i j bslide aslide,
        e = ⟨some bslide, some aslide, some i, some j, .title⟩ ∧
        b[i]? = some bslide ∧ a[j]? = some aslide ∧
        normalizeTitleForMatching aslide.title = normalizeTitleForMatching bslide.title ∧
        ∀ j' < j, ∀ s', a[j']? = some s' →
          normalizeTitleForMatching s'.title = normalizeTitleForMatching bslide.title →
          j' ∈ ((phase1Matches b a).take k).filterMap (·.afterIndex)) ∧
    ((diffPresentations ⟨exDupBefore, []⟩ ⟨exDupAfter, []⟩).slideDiffs.map (·.status) =
      [DiffStatus.modified, DiffStatus.unchanged]) := by
  refine ⟨?_, ?_, ?_⟩
  · unfold phase1Matches
    exact phase1_beforeIdx_pairwise a b 0 []
  · intro k e he
    unfold phase1Matches at he ⊢
    obtain ⟨i, j, bslide, aslide, h1, h2, h3, h4, h5⟩ :=
      phase1_entry_spec a b b 0 [] rfl k e he
    refine ⟨i, j, bslide, aslide, h1, h2, h3, h4, ?_⟩
    intro j' hj' s' hget htit
    simpa using h5 j' hj' s' hget htit
  · have hms : matchSlides exDupBefore exDupAfter =
        phase1Matches exDupBefore exDupAfter ++ phase2Matches exDupBefore exDupAfter ++
          phase3Removed exDupBefore exDupAfter ++ phase3Added exDupBefore exDupAfter := by
      rw [matchSlides]
      exact List.mergeSort_of_sorted (by decide)
    show ((matchSlides exDupBefore exDupAfter).map createSlideDiff).map (·.status) = _
    rw [hms]
    decide

/-- Witness for C5: the first phase-1 entry of the duplicate-titles scenario.
-/
theorem claim_C5_witness :
    ∃ e, (phase1Matches exDupBefore exDupAfter)[0]? = some e ∧
      ∃ i j bslide aslide,
        e = (⟨some bslide, some aslide, some i, some j, .title⟩ : SlideMatch Unit) ∧
        exDupBefore[i]? = some bslide ∧ exDupAfter[j]? = some aslide ∧
        normalizeTitleForMatching aslide.title = normalizeTitleForMatching bslide.title ∧
        ∀ j' < j, ∀ s', exDupAfter[j']? = some s' →
          normalizeTitleForMatching s'.title = normalizeTitleForMatching bslide.title →
          j' ∈ ((phase1Matches exDupBefore exDupAfter).take 0).filterMap (·.afterIndex) :=
  ⟨⟨some (exSlide "b1".data "Same Title".data "Content 1".data),
    some (exSlide "a1".data "Same Title".data "Content 1 Modified".data),
    some 0, some 0, .title⟩,
   by decide,
   (claim_C5 exDupBefore exDupAfter).2.1 0 _ (by decide)⟩

/-- C1: for every pair of input slide sequences, every before-index and every
after-index appears in exactly one correspondence returned by `matchSlides`
(no index matched twice, none dropped), and the five summary counts produced
by `calculateDiffSummary` sum to the length of `slideDiffs`. -/
theorem claim_C1 (b a : List (MarkdownSlide γ)) (pd : PresentationDiff γ) :
    (∀ i, i < b.length →
      (matchSlides b a).countP (fun m => m.beforeIndex == some i) = 1) ∧
    (∀ j, j < a.length →
      (matchSlides b a).countP (fun m => m.afterIndex == some j) = 1) ∧
    (calculateDiffSummary pd).added + (calculateDiffSummary pd).removed +
        (calculateDiffSummary pd).modified + (calculateDiffSummary pd).unchanged +
        (calculateDiffSummary pd).moved = pd.slideDiffs.length := by
  refine ⟨fun i hi => matchSlides_countB b a i hi,
    fun j hj => matchSlides_countA b a j hj, ?_⟩
  unfold calculateDiffSummary
  rw [tallySummary_sum]
  simp

/-- Witness for C1 on the duplicate-titles scenario lists. -/
theorem claim_C1_witness :
    (0 < exDupBefore.length ∧
      (matchSlides exDupBefore exDupAfter).countP
        (fun m => m.beforeIndex == some 0) = 1) ∧
    (1 < exDupAfter.length ∧
      (matchSlides exDupBefore exDupAfter).countP
        (fun m => m.afterIndex == some 1) = 1) :=
  ⟨⟨by decide,
    (claim_C1 exDupBefore exDupAfter
      ⟨⟨[], []⟩, ⟨[], []⟩, [], ⟨0, 0, 0, 0, 0, 0, 0⟩⟩).1 0 (by decide)⟩,
   ⟨by decide,
    (claim_C1 exDupBefore exDupAfter
      ⟨⟨[], []⟩, ⟨[], []⟩, [], ⟨0, 0, 0, 0, 0, 0, 0⟩⟩).2.1 1 (by decide)⟩⟩

/-- C2: the classifier assigns `added` when only the after-slide is present,
`removed` when only the before-slide is present, and for matched pairs exactly
one of `unchanged`/`moved`/`modified`, determined solely by normalized-content
equality and index equality: content-equal and position-equal gives
`unchanged`, content-equal and position-unequal gives `moved`, content-unequal
gives `modified`. -/
theorem claim_C2 (m : SlideMatch γ) :
    (∀ a, m.beforeSlide = none → m.afterSlide = some a →
      (createSlideDiff m).status = .added) ∧
    (∀ b, m.beforeSlide = some b → m.afterSlide = none →
      (createSlideDiff m).status = .removed) ∧
    (∀ b a, m.beforeSlide = some b → m.afterSlide = some a →
      (((createSlideDiff m).status = .unchanged ↔
          slidesAreEqual b a ∧ m.beforeIndex = m.afterIndex) ∧
       ((createSlideDiff m).status = .moved ↔
          slidesAreEqual b a ∧ m.beforeIndex ≠ m.afterIndex) ∧
       ((createSlideDiff m).status = .modified ↔ ¬ (slidesAreEqual b a = true)))) := by
  obtain ⟨obs, oas, obi, oai, omb⟩ := m
  refine ⟨?_, ?_, ?_⟩
  · rintro a rfl rfl
    rfl
  · rintro b rfl rfl
    rfl
  · rintro b a rfl rfl
    by_cases heq : slidesAreEqual b a <;> by_cases hpos : obi = oai <;>
      simp [createSlideDiff, heq, hpos, bne_iff_ne]

/-- Witness for C2 at a concrete added-only match and a concrete matched
pair. -/
theorem claim_C2_witness :
    (createSlideDiff (⟨none, some (exSlide "a".data "T".data "c".data), none, some 0,
        .none⟩ : SlideMatch Unit)).status = .added ∧
    (createSlideDiff (⟨some (exSlide "b".data "T".data "c".data),
        some (exSlide "a".data "T".data "c".data), some 0, some 0,
        .title⟩ : SlideMatch Unit)).status = .unchanged :=
  ⟨(claim_C2 _).1 _ rfl rfl,
   ((claim_C2 _).2.2 _ _ rfl rfl).1.mpr ⟨by decide, rfl⟩⟩

/-- C8: `updatePresentationSlide` raises the "invalid index" error exactly when
the index is negative or at least the slide count; in the error case no
presentation value is produced at all (the input, a pure value, is untouched).
-/
theorem claim_C8 (parseChunks : List Char → List Char → List γ)
    (p : MarkdownPresentation γ) (slideIndex : Int) (newContent : List Char) :
    updatePresentationSlide parseChunks p slideIndex newContent =
        .error ("Invalid slide index".data) ↔
      slideIndex < 0 ∨ (p.slides.length : Int) ≤ slideIndex := by
  rw [updatePresentationSlide]
  split
  next h => exact iff_of_true rfl h
  next h => exact iff_of_false (by simp) h

/-- C10: for a valid index, the updated presentation keeps every other slide
unchanged, and the updated slide keeps its `id`, `startLine` and `endLine`,
changing only `content`, `title` and `chunks`. -/
theorem claim_C10 (parseChunks : List Char → List Char → List γ)
    (p : MarkdownPresentation γ) (slideIndex : Int) (newContent : List Char)
    (h0 : 0 ≤ slideIndex) (h1 : slideIndex < (p.slides.length : Int)) :
    ∃ p', updatePresentationSlide parseChunks p slideIndex newContent = .ok p' ∧
      p'.slides.length = p.slides.length ∧
      (∀ k : Nat, k ≠ slideIndex.toNat → p'.slides[k]? = p.slides[k]?) ∧
      ∃ old, p.slides[slideIndex.toNat]? = some old ∧
        p'.slides[slideIndex.toNat]? = some
          { old with
            title := extractSlideTitle newContent
            location := { old.location with content := newContent }
            chunks := parseChunks newContent old.id } := by
  rw [updatePresentationSlide]
  split
  next h => omega
  next h =>
    have hi : slideIndex.toNat < p.slides.length := by omega
    refine ⟨_, rfl, by simp, ?_, ?_⟩
    · intro k hk
      exact List.getElem?_set_ne (by omega)
    · exact ⟨p.slides.get ⟨slideIndex.toNat, hi⟩,
        by simp [List.getElem?_eq_getElem hi],
        by simp [List.getElem?_set_self hi]⟩

/-- Witness for C10: updating slide 0 of the one-slide `exPres`. -/
theorem claim_C10_witness :
    ∃ p', updatePresentationSlide (fun _ _ => ([] : List Unit)) exPres 0 "new".data = .ok p' ∧
      p'.slides.length = exPres.slides.length ∧
      (∀ k : Nat, k ≠ (0 : Int).toNat → p'.slides[k]? = exPres.slides[k]?) ∧
      ∃ old, exPres.slides[(0 : Int).toNat]? = some old ∧
        p'.slides[(0 : Int).toNat]? = some
          { old with
            title := extractSlideTitle "new".data
            location := { old.location with content := "new".data }
            chunks := (fun _ _ => ([] : List Unit)) "new".data old.id } :=
  claim_C10 _ exPres 0 "new".data (by decide) (by decide)

end MarkdownUtils
